/-
Verification development for the patrol subnet repository.

Shallow embedding of:
  * the graph-validation mechanism
    (src/patrol/validation/graph_validation/bittensor_validation_mechanism.py),
  * the substrate client's retry / keepalive logic
    (src/patrol/chain_data/substrate_client.py),
  * the missed-block retry pipeline
    (src/patrol/chain_data/missed_block_retry_task.py),
  * the block grouper and event fetcher entry points (modelled from the spec,
    since `event_fetcher.py` itself is not part of the source tree; its
    behaviour is pinned down by §4.2/§4.3 of the spec and by
    tests/chain_data/test_event_fetcher.py).

Python exceptions are embedded as `Except String`; the `except Exception`
boundary in `validate_payload` is embedded as a total function returning a
tagged result.  Collaborators that live outside the core (event fetcher +
event processor seen from the validator, the producer `stream_all_events`,
the repositories) are passed in as function parameters.
-/
import Mathlib

/-! # Protocol data model

Modelled from the spec: `patrol/protocol.py` is not in the source tree.
§3 of the spec describes `GraphPayload` (nodes with unique ids; edges with
coldkey_source / coldkey_destination / optional coldkey_owner / category /
type / evidence) and the evidence fields (amount, block number, and for
staking the subnet ids and delegate identifiers).  Construction of an
evidence dataclass from a raw dict fails (Python `TypeError`) when a
required field is missing or an unexpected field is present. -/

structure TransferEvidence where
  rao_amount : Int
  block_number : Nat
deriving DecidableEq, Repr

structure StakeEvidence where
  rao_amount : Int
  block_number : Nat
  destination_net_uid : Option Nat := none
  source_net_uid : Option Nat := none
  alpha_amount : Option Int := none
  delegate_hotkey_source : Option String := none
  delegate_hotkey_destination : Option String := none
deriving DecidableEq, Repr

inductive Evidence where
  | transfer (t : TransferEvidence)
  | stake (s : StakeEvidence)
deriving DecidableEq, Repr

structure Node where
  id : String
  type : String
  origin : String
deriving DecidableEq, Repr

structure Edge where
  coldkey_source : String
  coldkey_destination : String
  coldkey_owner : Option String := none
  category : String
  type : String
  evidence : Evidence
deriving DecidableEq, Repr

structure GraphPayload where
  nodes : List Node
  edges : List Edge
deriving DecidableEq, Repr

/-- A raw (unparsed) evidence dict: every field optional, as `dict.get`. -/
structure RawEvidence where
  rao_amount : Option Int := none
  block_number : Option Nat := none
  destination_net_uid : Option Nat := none
  source_net_uid : Option Nat := none
  alpha_amount : Option Int := none
  delegate_hotkey_source : Option String := none
  delegate_hotkey_destination : Option String := none
deriving DecidableEq, Repr

/-- A raw edge dict as received in the payload: `edge.get(...)` yields an
optional value for every key. -/
structure RawEdge where
  coldkey_source : Option String := none
  coldkey_destination : Option String := none
  coldkey_owner : Option String := none
  category : Option String := none
  type : Option String := none
  evidence : Option RawEvidence := none
deriving DecidableEq, Repr

/-- A raw payload dict holding the `nodes` and `edges` keys.  Node dicts are
modelled as well-shaped records (their parse errors are not relevant to any
claim). -/
structure RawPayload where
  nodes : List Node
  edges : List RawEdge
deriving DecidableEq, Repr

/-- Modelled from the spec: constructing `TransferEvidence(**evidence)` fails
when `rao_amount` or `block_number` is missing or a staking-only field is
present (unexpected keyword argument). -/
def mkTransferEvidence (ev : RawEvidence) : Except String TransferEvidence :=
  match ev.rao_amount, ev.block_number with
  | some r, some b =>
    if ev.destination_net_uid.isNone && ev.source_net_uid.isNone &&
       ev.alpha_amount.isNone && ev.delegate_hotkey_source.isNone &&
       ev.delegate_hotkey_destination.isNone
    then Except.ok { rao_amount := r, block_number := b }
    else Except.error "Payload validation error: unexpected evidence field"
  | _, _ => Except.error "Payload validation error: missing evidence field"

/-- Modelled from the spec: constructing `StakeEvidence(**evidence)` requires
`rao_amount` and `block_number`; the subnet / delegate / alpha fields are
optional. -/
def mkStakeEvidence (ev : RawEvidence) : Except String StakeEvidence :=
  match ev.rao_amount, ev.block_number with
  | some r, some b =>
    Except.ok { rao_amount := r, block_number := b,
                destination_net_uid := ev.destination_net_uid,
                source_net_uid := ev.source_net_uid,
                alpha_amount := ev.alpha_amount,
                delegate_hotkey_source := ev.delegate_hotkey_source,
                delegate_hotkey_destination := ev.delegate_hotkey_destination }
  | _, _ => Except.error "Payload validation error: missing evidence field"

/-! # Graph validator: parsing
`BittensorValidationMechanism.parse_graph_payload`. -/

/-- The duplicate-edge key
`(coldkey_source, coldkey_destination, category, type, rao_amount, block_number)`,
each component read with `.get` (hence optional). -/
abbrev EdgeDupKey :=
  Option String × Option String × Option String × Option String × Option Int × Option Nat

def rawEdgeKey (e : RawEdge) (ev : RawEvidence) : EdgeDupKey :=
  (e.coldkey_source, e.coldkey_destination, e.category, e.type,
   ev.rao_amount, ev.block_number)

/-- The node loop of `parse_graph_payload`: collect nodes, failing on a
duplicate id. -/
def parseNodes (seen : List String) : List Node → Except String (List Node)
  | [] => Except.ok []
  | n :: rest =>
    if n.id ∈ seen then Except.error "Duplicate node detected."
    else
      match parseNodes (n.id :: seen) rest with
      | Except.error m => Except.error m
      | Except.ok tail => Except.ok (n :: tail)

/-- The edge loop of `parse_graph_payload`: the duplicate key of *every* edge
is recorded, but only edges whose category is `"balance"` or `"staking"` are
appended to the parsed edge list; an edge of any other category is silently
skipped.  Missing `evidence` fails; constructing an `Edge` reads the
source/destination/type keys by indexing (failure when absent), and the
evidence dataclass construction may fail on a malformed shape. -/
def parseEdges (seen : List EdgeDupKey) : List RawEdge → Except String (List Edge)
  | [] => Except.ok []
  | e :: rest =>
    match e.evidence with
    | none => Except.error "Edge is missing the 'evidence' field."
    | some ev =>
      if rawEdgeKey e ev ∈ seen then Except.error "Duplicate edge detected."
      else
        let seen' := rawEdgeKey e ev :: seen
        if e.category = some "balance" then
          match e.coldkey_source, e.coldkey_destination, e.type with
          | some s, some d, some t =>
            match mkTransferEvidence ev with
            | Except.error m => Except.error m
            | Except.ok te =>
              match parseEdges seen' rest with
              | Except.error m => Except.error m
              | Except.ok tail =>
                Except.ok ({ coldkey_source := s, coldkey_destination := d,
                             coldkey_owner := none, category := "balance",
                             type := t, evidence := Evidence.transfer te } :: tail)
          | _, _, _ => Except.error "KeyError"
        else if e.category = some "staking" then
          match e.coldkey_source, e.coldkey_destination, e.type with
          | some s, some d, some t =>
            match mkStakeEvidence ev with
            | Except.error m => Except.error m
            | Except.ok se =>
              match parseEdges seen' rest with
              | Except.error m => Except.error m
              | Except.ok tail =>
                Except.ok ({ coldkey_source := s, coldkey_destination := d,
                             coldkey_owner := e.coldkey_owner, category := "staking",
                             type := t, evidence := Evidence.stake se } :: tail)
          | _, _, _ => Except.error "KeyError"
        else
          parseEdges seen' rest

/-- `parse_graph_payload`: build the node and edge lists, enforcing the
uniqueness invariants. -/
def parse_graph_payload (p : RawPayload) : Except String GraphPayload :=
  match parseNodes [] p.nodes with
  | Except.error m => Except.error m
  | Except.ok nodes =>
    match parseEdges [] p.edges with
    | Except.error m => Except.error m
    | Except.ok edges => Except.ok { nodes := nodes, edges := edges }

/-! # Graph validator: target membership -/

/-- `verify_target_in_graph`: the target must appear as destination, source
or owner of some edge. -/
def verify_target_in_graph (g : GraphPayload) (target : String) : Except String Unit :=
  if g.edges.any (fun e =>
      decide (e.coldkey_destination = target) || decide (e.coldkey_source = target) ||
      decide (e.coldkey_owner = some target))
  then Except.ok ()
  else Except.error "Target not found in payload."

/-! # Graph validator: union-find connectivity
`verify_graph_connected`.  The Python `parent` dict is embedded as an
association list from node id to parent id; `find` performs path compression
and is given fuel (the dict size suffices for an acyclic parent forest, and
the fuel never runs out on the inputs produced by the algorithm). -/

def ufLookup (p : List (String × String)) (x : String) : Option String :=
  (p.find? (fun q => decide (q.1 = x))).map Prod.snd

/-- `parent[x] = r` (the key is always already present when the code runs). -/
def ufSet (p : List (String × String)) (x r : String) : List (String × String) :=
  p.map (fun q => if q.1 = x then (x, r) else q)

/-- `find` with path compression, returning the root and the updated parent
map. -/
def ufFind : Nat → List (String × String) → String → String × List (String × String)
  | 0, p, x => (x, p)
  | fuel + 1, p, x =>
    match ufLookup p x with
    | none => (x, p)
    | some px =>
      if px = x then (x, p)
      else
        match ufFind fuel p px with
        | (r, p1) => (r, ufSet p1 x r)

/-- `union(x, y)`: `parent[rootY] = rootX` when the roots differ. -/
def ufUnion (fuel : Nat) (p : List (String × String)) (x y : String) :
    List (String × String) :=
  match ufFind fuel p x with
  | (rx, p1) =>
    match ufFind fuel p1 y with
    | (ry, p2) => if rx = ry then p2 else ufSet p2 ry rx

/-- Python truthiness of the `coldkey_owner` value (`if own:`). -/
def ownerPresent (o : Option String) : Bool :=
  match o with
  | none => false
  | some s => decide (s ≠ "")

/-- The edge loop of `verify_graph_connected`: check that source and
destination are declared, union them, and when an owner is present check it
and union it with both endpoints. -/
def runUnions (fuel : Nat) : List Edge → List (String × String) →
    Except String (List (String × String))
  | [], p => Except.ok p
  | e :: rest, p =>
    if (ufLookup p e.coldkey_source).isNone || (ufLookup p e.coldkey_destination).isNone then
      Except.error "Edge refers to a node not in the payload"
    else
      let p1 := ufUnion fuel p e.coldkey_source e.coldkey_destination
      match e.coldkey_owner with
      | some own =>
        if own = "" then runUnions fuel rest p1
        else if (ufLookup p1 own).isNone then
          Except.error "Edge owner refers to a node not in the payload"
        else
          runUnions fuel rest
            (ufUnion fuel (ufUnion fuel p1 e.coldkey_source own) e.coldkey_destination own)
      | none => runUnions fuel rest p1

/-- `{find(node.id) for node in nodes}` threading the mutated parent map;
returns the roots in node order together with the final map. -/
def collectRoots (fuel : Nat) : List Node → List (String × String) →
    List String × List (String × String)
  | [], p => ([], p)
  | n :: rest, p =>
    match ufFind fuel p n.id with
    | (r, p1) =>
      match collectRoots fuel rest p1 with
      | (rs, p2) => (r :: rs, p2)

/-- The initial parent map: every declared node id mapped to itself. -/
def initParent (g : GraphPayload) : List (String × String) :=
  g.nodes.map (fun n => (n.id, n.id))

/-- `verify_graph_connected`: union-find over the declared node ids; succeeds
exactly when the set of roots of all declared nodes is a singleton. -/
def verify_graph_connected (g : GraphPayload) : Except String Unit :=
  match runUnions ((initParent g).length + 1) g.edges (initParent g) with
  | Except.error m => Except.error m
  | Except.ok p =>
    if ((collectRoots ((initParent g).length + 1) g.nodes p).1).dedup.length = 1 then
      Except.ok ()
    else Except.error "Graph is not fully connected."

/-! # Graph validator: edge cross-reference
`verify_edge_data`.  The event fetcher and the event-shaping collaborator are
external; their composition is passed in as a fallible function from the
requested block numbers to the processed on-chain events. -/

/-- A processed on-chain event dict (`event.get(...)` on every key). -/
structure PEvent where
  coldkey_source : Option String := none
  coldkey_destination : Option String := none
  coldkey_owner : Option String := none
  category : Option String := none
  type : Option String := none
  evidence : RawEvidence := {}
deriving DecidableEq, Repr

/-- The canonical comparison key (the JSON object built with `sort_keys=True`
is embedded as a typed tuple): source, destination, owner, category, type,
rao_amount, block_number, destination_net_uid, source_net_uid, alpha_amount,
delegate_hotkey_source, delegate_hotkey_destination. -/
abbrev EventKey :=
  Option String × Option String × Option String × Option String × Option String ×
  Option Int × Option Nat × Option Nat × Option Nat × Option Int ×
  Option String × Option String

def eventKey (e : PEvent) : EventKey :=
  (e.coldkey_source, e.coldkey_destination, e.coldkey_owner, e.category, e.type,
   e.evidence.rao_amount, e.evidence.block_number, e.evidence.destination_net_uid,
   e.evidence.source_net_uid, e.evidence.alpha_amount,
   e.evidence.delegate_hotkey_source, e.evidence.delegate_hotkey_destination)

/-- `vars(edge.evidence)` read back with `.get`: fields not present on the
dataclass come out as `None`. -/
def evidenceFields (ev : Evidence) :
    Option Int × Option Nat × Option Nat × Option Nat × Option Int ×
    Option String × Option String :=
  match ev with
  | Evidence.transfer t => (some t.rao_amount, some t.block_number, none, none, none, none, none)
  | Evidence.stake s =>
    (some s.rao_amount, some s.block_number, s.destination_net_uid, s.source_net_uid,
     s.alpha_amount, s.delegate_hotkey_source, s.delegate_hotkey_destination)

def edgeDataKey (e : Edge) : EventKey :=
  match evidenceFields e.evidence with
  | (rao, blk, dnu, snu, alpha, dhs, dhd) =>
    (some e.coldkey_source, some e.coldkey_destination, e.coldkey_owner,
     some e.category, some e.type, rao, blk, dnu, snu, alpha, dhs, dhd)

def evidenceBlockNumber (ev : Evidence) : Nat :=
  match ev with
  | Evidence.transfer t => t.block_number
  | Evidence.stake s => s.block_number

/-- `verify_edge_data`: fetch and process ground-truth events for the edges'
block numbers, and require every edge's canonical key to occur among the
event keys. -/
def verify_edge_data (fetchProcess : List Nat → Except String (List PEvent))
    (g : GraphPayload) : Except String Unit :=
  let block_numbers := g.edges.map (fun e => evidenceBlockNumber e.evidence)
  match fetchProcess block_numbers with
  | Except.error m => Except.error m
  | Except.ok processed =>
    let event_keys := processed.map eventKey
    let missing := g.edges.filter (fun e => decide (edgeDataKey e ∉ event_keys))
    if missing.length = 0 then Except.ok ()
    else Except.error (toString missing.length ++ " edges not found in on-chain events.")

/-! # Graph validator: the public boundary -/

/-- The two mutually exclusive result variants of one validation call. -/
inductive ValidationResult where
  | validated (g : GraphPayload)
  | errorPayload (message : String)
deriving DecidableEq, Repr

/-- `validate_payload`: runs the four steps inside a `try`, converting every
raised error into an `ErrorPayload` whose message is prefixed with
`"Error: "`.  A `None` (or empty-dict, hence falsy) payload is rejected up
front. -/
def validate_payload (fetchProcess : List Nat → Except String (List PEvent))
    (payload : Option RawPayload) (target : String) : ValidationResult :=
  let r : Except String GraphPayload :=
    match payload with
    | none => Except.error "Empty/Null Payload recieved."
    | some p =>
      match parse_graph_payload p with
      | Except.error m => Except.error m
      | Except.ok g =>
        match verify_target_in_graph g target with
        | Except.error m => Except.error m
        | Except.ok _ =>
          match verify_graph_connected g with
          | Except.error m => Except.error m
          | Except.ok _ =>
            match verify_edge_data fetchProcess g with
            | Except.error m => Except.error m
            | Except.ok _ => Except.ok g
  match r with
  | Except.ok g => ValidationResult.validated g
  | Except.error m => ValidationResult.errorPayload ("Error: " ++ m)

/-! # Substrate client: the retrying `query` primitive
`SubstrateClient.query`.  One call to the underlying session per attempt is
modelled by an outcome function from the 0-based attempt index; the loop
records one `Attempt` per iteration, carrying the sleep duration (seconds, as
a rational) and whether the connection was reinitialized at the end of that
iteration's error handler. -/

def charsStartWith : List Char → List Char → Bool
  | [], _ => true
  | _ :: _, [] => false
  | a :: as, b :: bs => decide (a = b) && charsStartWith as bs

def charsContain (needle : List Char) : List Char → Bool
  | [] => needle.isEmpty
  | c :: cs => charsStartWith needle (c :: cs) || charsContain needle cs

/-- `"429" in str(e)`. -/
def is429 (s : String) : Bool := charsContain "429".toList s.toList

inductive QOutcome (α : Type) where
  | ok (v : α)
  | err (msg : String)

/-- One iteration of the retry loop: either the attempt succeeded, or it
failed with a message, slept for `slept` seconds, and (when `reinited`)
reinitialized the group's connection. -/
inductive Attempt where
  | success (idx : Nat)
  | failure (idx : Nat) (msg : String) (slept : Rat) (reinited : Bool)
deriving DecidableEq, Repr

structure QueryRun (α : Type) where
  recs : List Attempt
  result : Except (List String) α

/-- The retry loop of `query`, recursing on the remaining attempts; the
current attempt index is `maxRetries - remaining`.  On failure the error is
appended, the loop sleeps `2 * (attempt + 1)` on a rate-limit error and
`0.25` otherwise, and reinitializes the connection when the attempt index
equals `maxRetries - 2` (as Python integers).  Falling off the loop raises
an error carrying the accumulated error list. -/
def queryGo (f : Nat → QOutcome α) (maxRetries : Nat) :
    Nat → List String → List Attempt → QueryRun α
  | 0, errors, recs => { recs := recs, result := Except.error errors }
  | remaining + 1, errors, recs =>
    match f (maxRetries - (remaining + 1)) with
    | QOutcome.ok v =>
      { recs := recs ++ [Attempt.success (maxRetries - (remaining + 1))],
        result := Except.ok v }
    | QOutcome.err e =>
      queryGo f maxRetries remaining (errors ++ [e])
        (recs ++ [Attempt.failure (maxRetries - (remaining + 1)) e
          (if is429 e then 2 * (((maxRetries - (remaining + 1) : Nat) : Rat) + 1) else 1 / 4)
          (decide (((maxRetries - (remaining + 1) : Nat) : Int) = (maxRetries : Int) - 2))])

/-- `SubstrateClient.query` for one group and method: at most `maxRetries`
attempts. -/
def query (f : Nat → QOutcome α) (maxRetries : Nat) : QueryRun α :=
  queryGo f maxRetries maxRetries [] []

def Attempt.isReinited : Attempt → Bool
  | Attempt.success _ => false
  | Attempt.failure _ _ _ r => r

/-- The number of iterations that have occurred when the (first)
reinitialization fires: the reinitialization runs at the end of the handler
of the failure record it is attached to, so that record is counted. -/
def failuresAtReinit : List Attempt → Option Nat
  | [] => none
  | a :: rest =>
    if a.isReinited then some 1
    else (failuresAtReinit rest).map (fun n => n + 1)

/-! # Substrate client: the keepalive loop
`SubstrateClient._keepalive_task`.  Each iteration pings the group's anchor
block inside `try`; on a ping failure the `except` handler reinitializes the
connection — but the reinitialization itself performs network calls
(`close`, `get_block_hash`, `init_runtime`) and is *not* protected, so its
failure escapes the `while True` loop and ends the task.  An iteration's
environment outcome is one of three cases; the state is the connection
generation (bumped by each successful reinitialization) paired with whether
the loop is still alive. -/

inductive KOutcome where
  | pingOk
  | pingFailReinitOk
  | pingFailReinitFail
deriving DecidableEq, Repr

/-- One loop iteration (no-op once the loop has died). -/
def keepaliveStep (st : Nat × Bool) (o : KOutcome) : Nat × Bool :=
  if st.2 = false then st
  else
    match o with
    | KOutcome.pingOk => st
    | KOutcome.pingFailReinitOk => (st.1 + 1, true)
    | KOutcome.pingFailReinitFail => (st.1, false)

/-- Run the keepalive loop against a finite prefix of environment outcomes,
starting from generation 0 with the loop alive. -/
def keepaliveRun (outcomes : List KOutcome) : Nat × Bool :=
  outcomes.foldl keepaliveStep (0, true)

/-! # Block grouper

Modelled from the spec: `group_block` / `group_blocks` live in
`patrol/chain_data/event_fetcher.py`, which is not in the source tree; the
boundary table and the mapping behaviour are fixed by §4.2 of the spec and by
`tests/chain_data/test_event_fetcher.py` (`test_group_block_boundaries`,
`test_group_blocks`).  Blocks at or below the lowest boundary 3014340 and
blocks above the current head are unmapped; each boundary value belongs to
the lower of the two adjacent groups; blocks above the last boundary (and not
above the head) fall into group 6. -/

/-- Upper (inclusive) boundaries for groups 1–5. -/
def GROUP_BOUNDS : List (Nat × Nat) :=
  [(1, 3804340), (2, 4264340), (3, 4920350), (4, 5163656), (5, 5228684)]

def LOWEST_BLOCK : Nat := 3014340

/-- Modelled from the spec: `group_block(block_number, current_block)`. -/
def group_block (b head : Nat) : Option Nat :=
  if b ≤ LOWEST_BLOCK then none
  else if head < b then none
  else
    match GROUP_BOUNDS.find? (fun p => decide (b ≤ p.2)) with
    | some p => some p.1
    | none => some 6

/-- The blocks that fall into group `g`. -/
def groupFilter (blocks : List Nat) (head : Nat) (g : Nat) : List Nat :=
  blocks.filter (fun b => decide (group_block b head = some g))

/-- Modelled from the spec: `group_blocks` partitions blocks by `group_block`,
discarding unmapped entries (hashes are resolved separately and carried
alongside; they are irrelevant to the grouping and omitted here). -/
def group_blocks (blocks : List Nat) (head : Nat) : List (Nat × List Nat) :=
  ((List.range 6).map (fun i => i + 1)).filterMap (fun g =>
    if (groupFilter blocks head g).isEmpty then none
    else some (g, groupFilter blocks head g))

/-! # Event fetcher entry point

Modelled from the spec: `EventFetcher.fetch_all_events` is not in the source
tree.  Per §4.3 of the spec and `tests/chain_data/test_event_fetcher.py`: a
non-integer in the input makes the whole call return an empty result; block
numbers are deduplicated; the deduplicated blocks are grouped by
`group_block` and each group's events fetched in one batched call, producing
a map from block number to its raw events (here: the per-block result of the
`events` oracle). -/

inductive BlockInput where
  | intV (n : Nat)
  | nonInt
deriving DecidableEq, Repr

def BlockInput.isInt : BlockInput → Bool
  | BlockInput.intV _ => true
  | BlockInput.nonInt => false

def BlockInput.toInt? : BlockInput → Option Nat
  | BlockInput.intV n => some n
  | BlockInput.nonInt => none

/-- Modelled from the spec: `fetch_all_events(block_numbers)`. -/
def fetch_all_events (xs : List BlockInput) (head : Nat) (events : Nat → α) :
    List (Nat × α) :=
  if xs.any (fun x => !x.isInt) then []
  else
    let blocks := (xs.filterMap BlockInput.toInt?).dedup
    let grouped := group_blocks blocks head
    (grouped.map (fun gb => gb.2.map (fun b => (b, events b)))).flatten

/-! # Missed-block retry pipeline
`MissedBlocksRetryTask`.  The producer `stream_all_events` is an external
collaborator (not in the source tree): its output is modelled as the list of
queue messages (each a dict from block number to that block's raw events,
embedded as an association list) plus the list of blocks whose fetch failed.
The event processor and the event repository are collaborators, passed in as
functions; `created_at` (wall-clock time) is omitted from the database
record. -/

/-- `dict(pairs)`: first-insertion order, with a later duplicate key
overwriting the earlier value in place. -/
def dictInsert (acc : List (Nat × α)) (p : Nat × α) : List (Nat × α) :=
  if acc.any (fun q => decide (q.1 = p.1)) then
    acc.map (fun q => if q.1 = p.1 then p else q)
  else acc ++ [p]

def toDict (l : List (Nat × α)) : List (Nat × α) :=
  l.foldl dictInsert []

/-- The database record built by `_convert_to_db_format` (minus
`created_at`); the staking-specific columns are populated only for staking
events. -/
structure DbEvent where
  coldkey_source : Option String := none
  coldkey_destination : Option String := none
  edge_category : Option String := none
  edge_type : Option String := none
  coldkey_owner : Option String := none
  block_number : Option Nat := none
  rao_amount : Option Int := none
  destination_net_uid : Option Nat := none
  source_net_uid : Option Nat := none
  alpha_amount : Option Int := none
  delegate_hotkey_source : Option String := none
  delegate_hotkey_destination : Option String := none
deriving DecidableEq, Repr

/-- The category-independent part of `_convert_to_db_format`. -/
def convert_to_db_base (e : PEvent) : DbEvent :=
  { coldkey_source := e.coldkey_source,
    coldkey_destination := e.coldkey_destination,
    edge_category := e.category,
    edge_type := e.type,
    coldkey_owner := e.coldkey_owner,
    block_number := e.evidence.block_number,
    rao_amount := e.evidence.rao_amount }

/-- `MissedBlocksRetryTask._convert_to_db_format`: the staking-specific
columns are added only when the record's category is `"staking"`. -/
def convert_to_db_format (e : PEvent) : DbEvent :=
  if (convert_to_db_base e).edge_category = some "staking" then
    { convert_to_db_base e with
        destination_net_uid := e.evidence.destination_net_uid,
        source_net_uid := e.evidence.source_net_uid,
        alpha_amount := e.evidence.alpha_amount,
        delegate_hotkey_source := e.evidence.delegate_hotkey_source,
        delegate_hotkey_destination := e.evidence.delegate_hotkey_destination }
  else convert_to_db_base e

/-- The keys of an association list. -/
def keysOf (l : List (Nat × α)) : List Nat := l.map Prod.fst

/-- The database records produced by one flush (`event_data_list`). -/
def edlOf (process : List (Nat × α) → List PEvent) (f : List (Nat × α)) : List DbEvent :=
  (process (toDict f)).map convert_to_db_format

/-- The distinct block numbers carrying events in one flush
(`blocks_with_events`). -/
def bweOf (process : List (Nat × α) → List PEvent) (f : List (Nat × α)) :
    List (Option Nat) :=
  ((edlOf process f).map (fun e => e.block_number)).dedup

/-! ## The consumer's buffering
`consumer_event_queue`: items accumulate in a deque; whenever at least
`bufferSize` items are pending, exactly `bufferSize` of them are popped from
the front and flushed; when the producer finishes, whatever remains (possibly
nothing) is flushed. -/

/-- The inner `while len(buffer) >= buffer_size` loop, with fuel (the buffer
length strictly decreases by `B ≥ 1` each round, so `buf.length` rounds of
fuel always suffice). -/
def fullFlushesAux (B : Nat) : Nat → List α → List (List α) × List α
  | 0, buf => ([], buf)
  | fuel + 1, buf =>
    if 0 < B ∧ B ≤ buf.length then
      match fullFlushesAux B fuel (buf.drop B) with
      | (fs, rest) => (buf.take B :: fs, rest)
    else ([], buf)

def fullFlushes (B : Nat) (buf : List α) : List (List α) × List α :=
  fullFlushesAux B buf.length buf

/-- One message arriving at the consumer: extend the buffer, then run the
full-flush loop. -/
def consumerStep (B : Nat) (acc : List (List α) × List α) (events : List α) :
    List (List α) × List α :=
  match fullFlushes B (acc.2 ++ events) with
  | (fs, rest) => (acc.1 ++ fs, rest)

/-- Folding the queue messages through the consumer: the accumulated full
flushes together with the pending buffer. -/
def consumerRun (B : Nat) (msgs : List (List α)) : List (List α) × List α :=
  msgs.foldl (consumerStep B) ([], [])

/-- Every flush the consumer performs, in order: the full flushes of exactly
`B` items, then the final flush of whatever remains (possibly empty —
`process_buffered_events` is a no-op on an empty buffer). -/
def consumerFlushes (B : Nat) (msgs : List (List α)) : List (List α) :=
  (consumerRun B msgs).1 ++ [(consumerRun B msgs).2]

/-! ## Flushing and reconciliation -/

/-- The mutable lists of `_retry_missed_blocks` that `process_buffered_events`
appends to: `successful_blocks` (note: these are the `block_number` values of
stored database records, hence optional) and `blocks_without_events`. -/
structure RetrySt where
  successful : List (Option Nat)
  withoutEvents : List Nat
deriving DecidableEq, Repr

/-- `process_buffered_events(buffer)`: no-op on an empty buffer; otherwise
process the buffer's dict through the event processor, convert to database
records, collect the distinct block numbers carrying events, store the
records (extending `successful_blocks` only if the repository call succeeds,
a storage error being logged and swallowed), and record the dict keys that
produced no event whenever the key count and the with-events count differ. -/
def process_buffered_events (process : List (Nat × α) → List PEvent)
    (storeOk : List DbEvent → Bool) (st : RetrySt) (buffer : List (Nat × α)) :
    RetrySt :=
  if buffer.isEmpty then st
  else
    { successful :=
        if (edlOf process buffer).isEmpty then st.successful
        else if storeOk (edlOf process buffer) then st.successful ++ bweOf process buffer
        else st.successful,
      withoutEvents :=
        if (toDict buffer).length = (bweOf process buffer).length then st.withoutEvents
        else st.withoutEvents ++
          (keysOf (toDict buffer)).filter (fun k => decide (some k ∉ bweOf process buffer)) }

/-- The reconciliation outcome of one `_retry_missed_blocks` run: the blocks
removed from the missed-block store, the blocks re-added with reason
`FETCH_FAILURE`, and the blocks re-added with reason `NO_EVENTS`. -/
structure RetryOutcome where
  removed : List (Option Nat)
  fetchFailure : List Nat
  noEvents : List Nat
deriving DecidableEq, Repr

/-- `_retry_missed_blocks` for one batch: run the consumer over the
producer's queue messages, flush through `process_buffered_events`, then
remove the deduplicated successful blocks and re-add the fetch-failed and
event-less blocks. -/
def retry_missed_blocks (process : List (Nat × α) → List PEvent)
    (storeOk : List DbEvent → Bool) (B : Nat)
    (chunks : List (List (Nat × α))) (fetchFailed : List Nat) : RetryOutcome :=
  { removed := ((consumerFlushes B chunks).foldl (process_buffered_events process storeOk)
      { successful := [], withoutEvents := [] }).successful.dedup,
    fetchFailure := fetchFailed,
    noEvents := ((consumerFlushes B chunks).foldl (process_buffered_events process storeOk)
      { successful := [], withoutEvents := [] }).withoutEvents }

/-- Exactly one of three alternatives holds. -/
def ExactlyOne (a b c : Prop) : Prop :=
  (a ∧ ¬ b ∧ ¬ c) ∨ (¬ a ∧ b ∧ ¬ c) ∨ (¬ a ∧ ¬ b ∧ c)

instance (a b c : Prop) [Decidable a] [Decidable b] [Decidable c] :
    Decidable (ExactlyOne a b c) := by
  unfold ExactlyOne
  infer_instance

/-! # Lemmas: the validation boundary -/

/-- Case analysis of `validate_payload`: the call always returns a value, and
on the success variant the returned payload is exactly the output of
`parse_graph_payload`. -/
theorem validatePayloadCases (fp : List Nat → Except String (List PEvent))
    (payload : Option RawPayload) (target : String) :
    (∃ g, validate_payload fp payload target = ValidationResult.validated g ∧
          ∃ p, payload = some p ∧ parse_graph_payload p = Except.ok g) ∨
    (∃ m, validate_payload fp payload target = ValidationResult.errorPayload m) := by
  cases hpay : payload with
  | none => right; exact ⟨_, rfl⟩
  | some p =>
    cases hparse : parse_graph_payload p with
    | error m =>
      right; refine ⟨"Error: " ++ m, ?_⟩; simp [validate_payload, hparse]
    | ok g =>
      cases htar : verify_target_in_graph g target with
      | error m =>
        right; refine ⟨"Error: " ++ m, ?_⟩; simp [validate_payload, hparse, htar]
      | ok u =>
        cases hcon : verify_graph_connected g with
        | error m =>
          right; refine ⟨"Error: " ++ m, ?_⟩
          simp [validate_payload, hparse, htar, hcon]
        | ok u' =>
          cases hed : verify_edge_data fp g with
          | error m =>
            right; refine ⟨"Error: " ++ m, ?_⟩
            simp [validate_payload, hparse, htar, hcon, hed]
          | ok u'' =>
            left
            refine ⟨g, ?_, p, rfl, hparse⟩
            simp [validate_payload, hparse, htar, hcon, hed]

/-- Claim C1: for every uid, payload (including null/empty) and target,
`validate_payload` never propagates an exception: it returns either the
parsed, validated graph payload unchanged (on success) or an error payload
carrying only a message (on any failure), and the two variants are mutually
exclusive outcomes of the same call.  (The uid only feeds logging and is not
part of the result.) -/
theorem validate_payload_never_raises (fp : List Nat → Except String (List PEvent))
    (payload : Option RawPayload) (target : String) :
    ((∃ g, validate_payload fp payload target = ValidationResult.validated g ∧
           ∃ p, payload = some p ∧ parse_graph_payload p = Except.ok g) ∨
     (∃ m, validate_payload fp payload target = ValidationResult.errorPayload m)) ∧
    ¬ ((∃ g, validate_payload fp payload target = ValidationResult.validated g) ∧
       (∃ m, validate_payload fp payload target = ValidationResult.errorPayload m)) := by
  refine ⟨validatePayloadCases fp payload target, ?_⟩
  rintro ⟨⟨g, hg⟩, ⟨m, hm⟩⟩
  rw [hg] at hm
  cases hm

/-! # Lemmas: edge categories surviving the parse -/

/-- Every edge produced by the edge loop has category `"balance"` or
`"staking"`; edges of any other category are dropped (their duplicate key
having been recorded). -/
theorem parseEdges_categories (l : List RawEdge) :
    ∀ seen res, parseEdges seen l = Except.ok res →
      ∀ e ∈ res, e.category = "balance" ∨ e.category = "staking" := by
  induction l with
  | nil =>
    intro seen res h e he
    simp only [parseEdges] at h
    cases h
    simp at he
  | cons hd tl ih =>
    intro seen res h e he
    simp only [parseEdges] at h
    split at h
    · cases h
    · split at h
      · cases h
      · split at h
        · -- category "balance"
          split at h
          · -- source, destination, type all present
            split at h
            · cases h
            · split at h
              · cases h
              next tail hrest =>
                cases h
                rcases List.mem_cons.mp he with rfl | htl
                · left; rfl
                · exact ih _ _ hrest e htl
          · cases h
        · split at h
          · -- category "staking"
            split at h
            · split at h
              · cases h
              · split at h
                · cases h
                next tail hrest =>
                  cases h
                  rcases List.mem_cons.mp he with rfl | htl
                  · right; rfl
                  · exact ih _ _ hrest e htl
            · cases h
          · -- any other category: the edge is dropped
            exact ih _ _ h e he

/-- A raw edge whose category is neither `"balance"` nor `"staking"`. -/
def unknownCatEdge : RawEdge :=
  { coldkey_source := some "A", coldkey_destination := some "B",
    category := some "other", type := some "transfer",
    evidence := some { rao_amount := some 1, block_number := some 2 } }

def nodeA : Node := { id := "A", type := "wallet", origin := "bittensor" }

def payloadUnknownCat : RawPayload := { nodes := [nodeA], edges := [unknownCatEdge] }

def payloadUnknownCatDup : RawPayload :=
  { nodes := [nodeA], edges := [unknownCatEdge, unknownCatEdge] }

/-- A minimal balance payload used to witness the parse. -/
def payloadOneBalance : RawPayload :=
  { nodes := [nodeA],
    edges := [{ coldkey_source := some "A", coldkey_destination := some "B",
                category := some "balance", type := some "transfer",
                evidence := some { rao_amount := some 1, block_number := some 2 } }] }

/-- Claim C10: edges whose category is neither `"balance"` nor `"staking"`
are silently omitted from the parsed payload (their duplicate key still
participating in duplicate-edge detection): every edge of a successfully
parsed payload — hence every edge the later target-membership, connectivity
and cross-reference steps (which consume only the parsed payload) can see —
has category `"balance"` or `"staking"`; a payload containing an
unknown-category edge parses successfully with that edge absent, while
duplicating that same unknown-category edge still fails parsing with a
duplicate-edge error. -/
theorem unknown_category_edges_silently_dropped :
    (∀ (p : RawPayload) (g : GraphPayload), parse_graph_payload p = Except.ok g →
      ∀ e ∈ g.edges, e.category = "balance" ∨ e.category = "staking") ∧
    (∀ (fp : List Nat → Except String (List PEvent)) (payload : Option RawPayload)
        (target : String) (g : GraphPayload),
      validate_payload fp payload target = ValidationResult.validated g →
      ∀ e ∈ g.edges, e.category = "balance" ∨ e.category = "staking") ∧
    parse_graph_payload payloadUnknownCat = Except.ok { nodes := [nodeA], edges := [] } ∧
    parse_graph_payload payloadUnknownCatDup = Except.error "Duplicate edge detected." := by
  have hparse : ∀ (p : RawPayload) (g : GraphPayload), parse_graph_payload p = Except.ok g →
      ∀ e ∈ g.edges, e.category = "balance" ∨ e.category = "staking" := by
    intro p g h e he
    unfold parse_graph_payload at h
    split at h
    · cases h
    · split at h
      · cases h
      next edges hedges =>
        cases h
        exact parseEdges_categories p.edges [] edges hedges e he
  refine ⟨hparse, ?_, rfl, rfl⟩
  intro fp payload target g hval e he
  rcases validatePayloadCases fp payload target with ⟨g', hg', p, rfl, hp⟩ | ⟨m, hm⟩
  · rw [hval] at hg'
    cases hg'
    exact hparse p g hp e he
  · rw [hval] at hm
    cases hm

/-- Claim C10 witness: the first conjunct applied to the concrete one-balance
payload. -/
theorem unknown_category_edges_silently_dropped_witness :
    ∀ e ∈ [({ coldkey_source := "A", coldkey_destination := "B", coldkey_owner := none,
              category := "balance", type := "transfer",
              evidence := Evidence.transfer { rao_amount := 1, block_number := 2 } } : Edge)],
      e.category = "balance" ∨ e.category = "staking" :=
  unknown_category_edges_silently_dropped.1 payloadOneBalance
    { nodes := [nodeA],
      edges := [{ coldkey_source := "A", coldkey_destination := "B", coldkey_owner := none,
                  category := "balance", type := "transfer",
                  evidence := Evidence.transfer { rao_amount := 1, block_number := 2 } }] }
    rfl

/-! # Lemmas: union-find -/

theorem ufSet_keys (p : List (String × String)) (x r : String) :
    (ufSet p x r).map Prod.fst = p.map Prod.fst := by
  induction p with
  | nil => rfl
  | cons q rest ih =>
    simp only [ufSet, List.map_cons] at *
    by_cases hq : q.1 = x
    · simp [hq, ih]
    · simp [hq, ih]

theorem ufFind_keys (fuel : Nat) :
    ∀ (p : List (String × String)) (x : String),
      ((ufFind fuel p x).2).map Prod.fst = p.map Prod.fst := by
  induction fuel with
  | zero => intro p x; rfl
  | succ n ih =>
    intro p x
    simp only [ufFind]
    cases hl : ufLookup p x with
    | none => rfl
    | some px =>
      by_cases hpx : px = x
      · simp [hpx]
      · simp only [if_neg hpx]
        cases hf : ufFind n p px with
        | mk r p1 =>
          have h1 : p1.map Prod.fst = p.map Prod.fst := by
            have := ih p px
            rw [hf] at this
            exact this
          simp [ufSet_keys, h1]

theorem ufUnion_keys (fuel : Nat) (p : List (String × String)) (x y : String) :
    (ufUnion fuel p x y).map Prod.fst = p.map Prod.fst := by
  simp only [ufUnion]
  cases hf : ufFind fuel p x with
  | mk rx p1 =>
    cases hf2 : ufFind fuel p1 y with
    | mk ry p2 =>
      have h1 : p1.map Prod.fst = p.map Prod.fst := by
        have := ufFind_keys fuel p x; rw [hf] at this; exact this
      have h2 : p2.map Prod.fst = p1.map Prod.fst := by
        have := ufFind_keys fuel p1 y; rw [hf2] at this; exact this
      by_cases hr : rx = ry
      · simp [hr, h1, h2]
      · simp [hr, ufSet_keys, h1, h2]

theorem ufLookup_none_iff (p : List (String × String)) (x : String) :
    ufLookup p x = none ↔ x ∉ p.map Prod.fst := by
  constructor
  · intro h hx
    rcases List.mem_map.mp hx with ⟨q, hq, hqx⟩
    unfold ufLookup at h
    cases hf : List.find? (fun q => decide (q.1 = x)) p with
    | none =>
      rw [List.find?_eq_none] at hf
      have := hf q hq
      simp [hqx] at this
    | some v => rw [hf] at h; cases h
  · intro h
    unfold ufLookup
    cases hf : List.find? (fun q => decide (q.1 = x)) p with
    | none => rfl
    | some v =>
      have hmem := List.mem_of_find?_eq_some hf
      have hpred := List.find?_some hf
      simp only [decide_eq_true_eq] at hpred
      exact absurd (List.mem_map.mpr ⟨v, hmem, hpred⟩) h

theorem runUnions_keys (fuel : Nat) :
    ∀ (edges : List Edge) (p p' : List (String × String)),
      runUnions fuel edges p = Except.ok p' → p'.map Prod.fst = p.map Prod.fst := by
  intro edges
  induction edges with
  | nil => intro p p' h; cases h; rfl
  | cons e rest ih =>
    intro p p' h
    simp only [runUnions] at h
    split at h
    · cases h
    · split at h
      · split at h
        · have := ih _ _ h
          rw [this, ufUnion_keys]
        · split at h
          · cases h
          · have := ih _ _ h
            rw [this, ufUnion_keys, ufUnion_keys, ufUnion_keys]
      · have := ih _ _ h
        rw [this, ufUnion_keys]

/-- An edge is a bad reference w.r.t. the declared node-id list: its source
or destination is undeclared, or its owner is present (truthy) and
undeclared. -/
def badEdgeRef (e : Edge) (ids : List String) : Prop :=
  e.coldkey_source ∉ ids ∨ e.coldkey_destination ∉ ids ∨
  (∃ o, e.coldkey_owner = some o ∧ o ≠ "" ∧ o ∉ ids)

instance (e : Edge) (ids : List String) : Decidable (badEdgeRef e ids) := by
  unfold badEdgeRef
  infer_instance

theorem runUnions_err_of_bad (fuel : Nat) :
    ∀ (edges : List Edge) (p : List (String × String)),
      (∃ e ∈ edges, badEdgeRef e (p.map Prod.fst)) →
      ∃ m, runUnions fuel edges p = Except.error m := by
  intro edges
  induction edges with
  | nil =>
    intro p h
    rcases h with ⟨e, he, _⟩
    simp at he
  | cons e rest ih =>
    intro p h
    simp only [runUnions]
    split
    · exact ⟨_, rfl⟩
    next hcond =>
      rw [Bool.or_eq_true, Option.isNone_iff_eq_none, Option.isNone_iff_eq_none] at hcond
      push_neg at hcond
      have hsrc : e.coldkey_source ∈ p.map Prod.fst := by
        by_contra hc
        exact hcond.1 ((ufLookup_none_iff p _).mpr hc)
      have hdst : e.coldkey_destination ∈ p.map Prod.fst := by
        by_contra hc
        exact hcond.2 ((ufLookup_none_iff p _).mpr hc)
      have hrest_of_bad : ∀ q, (∃ e' ∈ rest, badEdgeRef e' (q.map Prod.fst)) →
          q.map Prod.fst = p.map Prod.fst →
          ∃ m, runUnions fuel rest q = Except.error m := by
        intro q hq _
        exact ih q hq
      split
      next own heq =>
        split
        next hemp =>
          -- owner is the empty string: skipped by truthiness
          apply ih
          rcases h with ⟨e', he', hbad⟩
          rcases List.mem_cons.mp he' with rfl | hmem
          · rcases hbad with hs | hd | ⟨o, ho, hone, _⟩
            · exact absurd hsrc hs
            · exact absurd hdst hd
            · rw [heq] at ho
              cases ho
              exact absurd hemp hone
          · exact ⟨e', hmem, by rw [ufUnion_keys]; exact hbad⟩
        next hemp =>
          split
          · exact ⟨_, rfl⟩
          next hlook =>
            rw [Bool.not_eq_true, Option.isNone_eq_false_iff, Option.isSome_iff_exists] at hlook
            apply ih
            rcases h with ⟨e', he', hbad⟩
            rcases List.mem_cons.mp he' with heq' | hmem
            · rw [heq'] at hbad
              rcases hbad with hs | hd | ⟨o, ho, hone, hno⟩
              · exact absurd hsrc hs
              · exact absurd hdst hd
              · rw [heq] at ho
                injection ho with ho'
                rcases hlook with ⟨v, hv⟩
                have hn : ufLookup (ufUnion fuel p e.coldkey_source e.coldkey_destination) own = none := by
                  rw [ufLookup_none_iff, ufUnion_keys, ho']
                  exact hno
                rw [hn] at hv
                cases hv
            · refine ⟨e', hmem, ?_⟩
              rw [ufUnion_keys, ufUnion_keys, ufUnion_keys]
              exact hbad
      next heq =>
        apply ih
        rcases h with ⟨e', he', hbad⟩
        rcases List.mem_cons.mp he' with rfl | hmem
        · rcases hbad with hs | hd | ⟨o, ho, _, _⟩
          · exact absurd hsrc hs
          · exact absurd hdst hd
          · rw [heq] at ho
            cases ho
        · exact ⟨e', hmem, by rw [ufUnion_keys]; exact hbad⟩

theorem dedup_length_eq_one_iff {β : Type} [DecidableEq β] (l : List β) :
    l.dedup.length = 1 ↔ ∃ r, l ≠ [] ∧ ∀ x ∈ l, x = r := by
  rw [List.length_eq_one]
  constructor
  · rintro ⟨a, ha⟩
    refine ⟨a, ?_, ?_⟩
    · intro hnil
      rw [hnil] at ha
      cases ha
    · intro x hx
      have : x ∈ l.dedup := List.mem_dedup.mpr hx
      rw [ha] at this
      simpa using this
  · rintro ⟨r, hne, hall⟩
    refine ⟨r, ?_⟩
    have hnd : l.dedup.Nodup := l.nodup_dedup
    have hmem : r ∈ l.dedup := by
      rcases List.exists_mem_of_ne_nil l hne with ⟨x, hx⟩
      have := hall x hx
      rw [this] at hx
      exact List.mem_dedup.mpr hx
    have hsub : ∀ x ∈ l.dedup, x = r := fun x hx => hall x (List.mem_dedup.mp hx)
    cases hd : l.dedup with
    | nil => rw [hd] at hmem; simp at hmem
    | cons a t =>
      have ha : a = r := hsub a (by rw [hd]; exact List.mem_cons_self a t)
      cases t with
      | nil => rw [ha]
      | cons b t' =>
        have hb : b = r := hsub b (by rw [hd]; simp)
        rw [hd] at hnd
        rw [List.nodup_cons] at hnd
        exact absurd (by rw [ha, hb]; simp : a ∈ b :: t') hnd.1

def nodeB : Node := { id := "B", type := "wallet", origin := "bittensor" }

/-- Two declared nodes and no edges: not connected. -/
def twoNodesNoEdges : GraphPayload := { nodes := [nodeA, nodeB], edges := [] }

/-- Five nodes whose only connections chain through the shared owner "O". -/
def ownerChained : GraphPayload :=
  { nodes := [nodeA, nodeB,
              { id := "C", type := "wallet", origin := "bittensor" },
              { id := "D", type := "wallet", origin := "bittensor" },
              { id := "O", type := "wallet", origin := "bittensor" }],
    edges := [{ coldkey_source := "A", coldkey_destination := "B", coldkey_owner := some "O",
                category := "staking", type := "add",
                evidence := Evidence.stake { rao_amount := 1, block_number := 1 } },
              { coldkey_source := "C", coldkey_destination := "D", coldkey_owner := some "O",
                category := "staking", type := "add",
                evidence := Evidence.stake { rao_amount := 2, block_number := 2 } }] }

/-- An edge referencing an undeclared destination node id. -/
def badRefPayload : GraphPayload :=
  { nodes := [nodeA],
    edges := [{ coldkey_source := "A", coldkey_destination := "Z", coldkey_owner := none,
                category := "balance", type := "transfer",
                evidence := Evidence.transfer { rao_amount := 1, block_number := 1 } }] }

/-- Claim C2: `verify_graph_connected` succeeds iff union-find over the
declared node ids — unioning, for every edge, source with destination and,
when an owner is present, owner with both — yields one identical root for
every declared node; an edge referencing an undeclared node id (source,
destination, or truthy owner) is a hard failure; in particular, a payload
with two nodes and zero edges fails with "not fully connected", and a
payload whose edges chain through a shared owner passes. -/
theorem verify_graph_connected_correct (g : GraphPayload) :
    (verify_graph_connected g = Except.ok () ↔
      ∃ p, runUnions (g.nodes.length + 1) g.edges (initParent g) = Except.ok p ∧
        ∃ r, (collectRoots (g.nodes.length + 1) g.nodes p).1 ≠ [] ∧
             ∀ x ∈ (collectRoots (g.nodes.length + 1) g.nodes p).1, x = r) ∧
    ((∃ e ∈ g.edges, badEdgeRef e (g.nodes.map Node.id)) →
      ∃ m, verify_graph_connected g = Except.error m) ∧
    verify_graph_connected twoNodesNoEdges = Except.error "Graph is not fully connected." ∧
    verify_graph_connected ownerChained = Except.ok () := by
  have hkeys : (initParent g).map Prod.fst = g.nodes.map Node.id := by
    simp [initParent, List.map_map]
  have hlen : (initParent g).length = g.nodes.length := by
    simp [initParent]
  refine ⟨?_, ?_, rfl, rfl⟩
  · unfold verify_graph_connected
    rw [hlen]
    cases hr : runUnions (g.nodes.length + 1) g.edges (initParent g) with
    | error m =>
      simp only []
      constructor
      · intro h; cases h
      · rintro ⟨p, hp, _⟩
        cases hp
    | ok p =>
      simp only []
      rw [show ∀ c : Prop, ∀ [Decidable c],
            ((if c then Except.ok () else Except.error "Graph is not fully connected.")
               = (Except.ok () : Except String Unit) ↔ c) from ?_]
      · rw [dedup_length_eq_one_iff]
        constructor
        · rintro ⟨r, hne, hall⟩
          exact ⟨p, rfl, r, hne, hall⟩
        · rintro ⟨p', hp', r, hne, hall⟩
          cases hp'
          exact ⟨r, hne, hall⟩
      · intro c inst
        constructor
        · intro h
          by_contra hc
          rw [if_neg hc] at h
          cases h
        · intro hc
          rw [if_pos hc]
  · intro hbad
    unfold verify_graph_connected
    rw [hlen]
    rcases runUnions_err_of_bad (g.nodes.length + 1) g.edges (initParent g)
      (by rw [hkeys]; exact hbad) with ⟨m, hm⟩
    rw [hm]
    exact ⟨m, rfl⟩

/-- Claim C2 witness: the hard-failure conjunct applied to a concrete payload
whose single edge references the undeclared node "Z". -/
theorem verify_graph_connected_correct_witness :
    (∃ e ∈ badRefPayload.edges, badEdgeRef e (badRefPayload.nodes.map Node.id)) ∧
    ∃ m, verify_graph_connected badRefPayload = Except.error m :=
  ⟨by decide, (verify_graph_connected_correct badRefPayload).2.1 (by decide)⟩

/-! # Lemmas: the query retry loop -/

/-- The error message of attempt `i` (meaningful when the attempt failed). -/
def msgOf (f : Nat → QOutcome α) (i : Nat) : String :=
  match f i with
  | QOutcome.err e => e
  | QOutcome.ok _ => ""

/-- The back-off slept after a failure of attempt `i`. -/
def sleepOf (f : Nat → QOutcome α) (i : Nat) : Rat :=
  if is429 (msgOf f i) then 2 * ((i : Rat) + 1) else 1 / 4

theorem queryGo_length (f : Nat → QOutcome α) (m : Nat) :
    ∀ (remaining : Nat) (errors : List String) (recs : List Attempt),
      (queryGo f m remaining errors recs).recs.length ≤ recs.length + remaining := by
  intro remaining
  induction remaining with
  | zero => intro errors recs; simp [queryGo]
  | succ r ih =>
    intro errors recs
    simp only [queryGo]
    cases f (m - (r + 1)) with
    | ok v => simp
    | err e =>
      calc (queryGo f m r (errors ++ [e]) _).recs.length
          ≤ (recs ++ [Attempt.failure (m - (r + 1)) e _ _]).length + r := ih _ _
        _ = recs.length + (r + 1) := by simp; omega

theorem queryGo_records (f : Nat → QOutcome α) (m : Nat) :
    ∀ (remaining : Nat) (errors : List String) (recs : List Attempt)
      (i : Nat) (msg : String) (d : Rat) (rein : Bool),
      Attempt.failure i msg d rein ∈ (queryGo f m remaining errors recs).recs →
      Attempt.failure i msg d rein ∈ recs ∨
      (f i = QOutcome.err msg ∧ d = (if is429 msg then 2 * ((i : Rat) + 1) else 1 / 4) ∧
       rein = decide ((i : Int) = (m : Int) - 2)) := by
  intro remaining
  induction remaining with
  | zero => intro errors recs i msg d rein h; left; exact h
  | succ r ih =>
    intro errors recs i msg d rein h
    simp only [queryGo] at h
    cases hf : f (m - (r + 1)) with
    | ok v =>
      rw [hf] at h
      simp only [List.mem_append, List.mem_singleton] at h
      rcases h with hl | hr
      · left; exact hl
      · cases hr
    | err e =>
      rw [hf] at h
      rcases ih _ _ i msg d rein h with hmem | hprop
      · rcases List.mem_append.mp hmem with hl | hr
        · left; exact hl
        · right
          simp only [List.mem_singleton] at hr
          injection hr with h1 h2 h3 h4
          subst h1; subst h2; subst h3; subst h4
          exact ⟨hf, rfl, rfl⟩
      · right; exact hprop

/-- Closed form of the retry loop when every attempt fails. -/
theorem queryGo_closed (f : Nat → QOutcome α) (m : Nat) :
    ∀ (remaining : Nat) (errors : List String) (recs : List Attempt),
      (∀ i, i < m → ∃ e, f i = QOutcome.err e) →
      remaining ≤ m →
      queryGo f m remaining errors recs =
        { recs := recs ++ (List.range' (m - remaining) remaining).map
            (fun i => Attempt.failure i (msgOf f i) (sleepOf f i)
                        (decide ((i : Int) = (m : Int) - 2))),
          result := Except.error (errors ++ (List.range' (m - remaining) remaining).map (msgOf f)) } := by
  intro remaining
  induction remaining with
  | zero => intro errors recs _ _; simp [queryGo, List.range']
  | succ r ih =>
    intro errors recs hfail hle
    have hlt : m - (r + 1) < m := by omega
    rcases hfail _ hlt with ⟨e, he⟩
    have hmsg : msgOf f (m - (r + 1)) = e := by simp [msgOf, he]
    have hslept : sleepOf f (m - (r + 1))
        = (if is429 e then 2 * (((m - (r + 1) : Nat) : Rat) + 1) else 1 / 4) := by
      simp only [sleepOf, hmsg]
    simp only [queryGo, he]
    rw [ih (errors ++ [e]) _ hfail (by omega)]
    have harith : m - (r + 1) + 1 = m - r := by omega
    have hrange : List.range' (m - (r + 1)) (r + 1) =
        (m - (r + 1)) :: List.range' (m - r) r := by
      rw [List.range'_succ, harith]
    rw [hrange]
    simp only [List.map_cons, QueryRun.mk.injEq]
    refine ⟨?_, ?_⟩
    · rw [List.append_assoc, List.singleton_append, hmsg, hslept]
    · rw [List.append_assoc, List.singleton_append, hmsg]

theorem failuresAtReinit_range' (f : Nat → QOutcome α) (m : Nat) :
    ∀ (len s : Nat), s + len = m → s ≤ m - 2 → 2 ≤ m →
      failuresAtReinit ((List.range' s len).map
        (fun i => Attempt.failure i (msgOf f i) (sleepOf f i)
                    (decide ((i : Int) = (m : Int) - 2))))
      = some (m - 2 - s + 1) := by
  intro len
  induction len with
  | zero =>
    intro s hsum hs h2
    omega
  | succ n ih =>
    intro s hsum hs h2
    rw [List.range'_succ]
    simp only [List.map_cons, failuresAtReinit, Attempt.isReinited]
    by_cases hsm : s = m - 2
    · rw [if_pos (by simp only [decide_eq_true_eq]; omega :
          decide ((s : Int) = (m : Int) - 2) = true)]
      congr 1
      omega
    · rw [if_neg (by simp only [decide_eq_true_eq]; omega :
          ¬ decide ((s : Int) = (m : Int) - 2) = true)]
      rw [ih (s + 1) (by omega) (by omega) h2]
      simp only [Option.map]
      congr 1
      omega

/-- Claim C4 (amended): for every group/method (modelled by the per-attempt
outcome function) `query` makes at most `maxRetries` attempts; after each
failed attempt it sleeps `2 * attemptNumber` seconds (1-based attempt
number) when the error signals rate-limiting ("429") and a fixed `1/4`
second otherwise; the connection is reinitialized exactly at the failure of
the attempt whose 0-based index is `maxRetries - 2` — that is, after
`maxRetries - 1` failed attempts (not `maxRetries - 2`), leaving one final
attempt on the fresh connection; and if every attempt fails the call raises
an error carrying the full list of the `maxRetries` underlying errors in
order. -/
theorem query_retry_policy (f : Nat → QOutcome α) (m : Nat) :
    (query f m).recs.length ≤ m ∧
    (∀ i msg d rein, Attempt.failure i msg d rein ∈ (query f m).recs →
      f i = QOutcome.err msg ∧
      d = (if is429 msg then 2 * ((i : Rat) + 1) else 1 / 4) ∧
      (rein = true ↔ (i : Int) = (m : Int) - 2)) ∧
    ((∀ i, i < m → ∃ e, f i = QOutcome.err e) →
      query f m = QueryRun.mk
        ((List.range m).map
          (fun i => Attempt.failure i (msgOf f i) (sleepOf f i)
            (decide ((i : Int) = (m : Int) - 2))))
        (Except.error ((List.range m).map (msgOf f))) ∧
      ((List.range m).map (msgOf f)).length = m) ∧
    ((∀ i, i < m → ∃ e, f i = QOutcome.err e) → 2 ≤ m →
      failuresAtReinit (query f m).recs = some (m - 1)) := by
  refine ⟨?_, ?_, ?_, ?_⟩
  · have := queryGo_length f m m [] []
    simpa [query] using this
  · intro i msg d rein h
    rcases queryGo_records f m m [] [] i msg d rein h with hmem | ⟨h1, h2, h3⟩
    · simp at hmem
    · refine ⟨h1, h2, ?_⟩
      rw [h3]
      simp
  · intro hfail
    have hclosed := queryGo_closed f m m [] [] hfail (le_refl m)
    have hm : m - m = 0 := by omega
    rw [hm, ← List.range_eq_range'] at hclosed
    refine ⟨?_, by simp⟩
    simpa [query] using hclosed
  · intro hfail h2
    have hclosed := queryGo_closed f m m [] [] hfail (le_refl m)
    have hm : m - m = 0 := by omega
    rw [hm, ← List.range_eq_range'] at hclosed
    have : (query f m).recs = (List.range m).map
        (fun i => Attempt.failure i (msgOf f i) (sleepOf f i)
                    (decide ((i : Int) = (m : Int) - 2))) := by
      simp [query, hclosed]
    rw [this, List.range_eq_range']
    rw [failuresAtReinit_range' f m m 0 (by omega) (by omega) h2]
    congr 1
    omega

/-- Claim C4 counterexample: with `maxRetries = 3` and every attempt
failing (non-rate-limited), the reinitialization fires after 2 failed
attempts, whereas the claim says it fires after `maxRetries - 2 = 1` failed
attempts. -/
theorem query_reinit_timing_counterexample :
    failuresAtReinit (query (fun _ => QOutcome.err "boom" : Nat → QOutcome Unit) 3).recs
      = some 2 ∧
    (3 : Nat) - 2 = 1 ∧ (2 : Nat) ≠ 1 := by
  exact ⟨rfl, rfl, by decide⟩

/-- Claim C4 witness: the amended reinit timing at `maxRetries = 3` with all
attempts failing. -/
theorem query_retry_policy_witness :
    failuresAtReinit (query (fun _ => QOutcome.err "fail" : Nat → QOutcome Unit) 3).recs
      = some (3 - 1) :=
  (query_retry_policy (fun _ => QOutcome.err "fail") 3).2.2.2
    (fun _ _ => ⟨"fail", rfl⟩) (by norm_num)

/-! # Lemmas: the keepalive loop -/

theorem keepaliveFold (outcomes : List KOutcome) :
    ∀ g : Nat, (∀ o ∈ outcomes, o ≠ KOutcome.pingFailReinitFail) →
      outcomes.foldl keepaliveStep (g, true) =
        (g + outcomes.count KOutcome.pingFailReinitOk, true) := by
  induction outcomes with
  | nil => intro g _; simp
  | cons o rest ih =>
    intro g h
    have hrest : ∀ o' ∈ rest, o' ≠ KOutcome.pingFailReinitFail :=
      fun o' ho' => h o' (List.mem_cons_of_mem o ho')
    simp only [List.foldl_cons]
    cases o with
    | pingOk =>
      have hstep : keepaliveStep (g, true) KOutcome.pingOk = (g, true) := rfl
      rw [hstep, ih g hrest]
      simp [List.count_cons]
    | pingFailReinitOk =>
      have hstep : keepaliveStep (g, true) KOutcome.pingFailReinitOk = (g + 1, true) := rfl
      rw [hstep, ih (g + 1) hrest]
      simp [List.count_cons]
      omega
    | pingFailReinitFail =>
      exact absurd rfl (h _ (List.mem_cons_self _ _))

/-- Claim C9 (amended): each group's keepalive loop pings the group's anchor
block every iteration; a ping failure is caught and triggers a
reinitialization, and the loop continues — *provided the reinitialization
itself succeeds*: as long as no iteration's reinitialization fails, the loop
stays alive through any sequence of ping outcomes and the connection
generation counts exactly the successful reinitializations.  (If the
reinitialization raises, that exception is not caught and the loop
terminates — see the counterexample.) -/
theorem keepalive_loop_resilient (outcomes : List KOutcome)
    (h : ∀ o ∈ outcomes, o ≠ KOutcome.pingFailReinitFail) :
    (keepaliveRun outcomes).2 = true ∧
    (keepaliveRun outcomes).1 = outcomes.count KOutcome.pingFailReinitOk := by
  unfold keepaliveRun
  rw [keepaliveFold outcomes 0 h]
  simp

/-- Claim C9 counterexample: one iteration whose ping fails and whose
reinitialization also fails terminates the keepalive loop (the loop is dead:
a subsequent recoverable iteration no longer reinitializes), so a keepalive
failure *can* terminate the loop. -/
theorem keepalive_loop_dies_counterexample :
    (keepaliveRun [KOutcome.pingFailReinitFail]).2 = false ∧
    (keepaliveRun [KOutcome.pingFailReinitFail, KOutcome.pingFailReinitOk]).2 = false ∧
    (keepaliveRun [KOutcome.pingFailReinitFail, KOutcome.pingFailReinitOk]).1 = 0 := by
  decide

/-- Claim C9 witness: the amended resilience applied to a concrete outcome
sequence with two recoverable failures. -/
theorem keepalive_loop_resilient_witness :
    (keepaliveRun [KOutcome.pingOk, KOutcome.pingFailReinitOk, KOutcome.pingOk,
                   KOutcome.pingFailReinitOk]).2 = true ∧
    (keepaliveRun [KOutcome.pingOk, KOutcome.pingFailReinitOk, KOutcome.pingOk,
                   KOutcome.pingFailReinitOk]).1 =
      [KOutcome.pingOk, KOutcome.pingFailReinitOk, KOutcome.pingOk,
       KOutcome.pingFailReinitOk].count KOutcome.pingFailReinitOk :=
  keepalive_loop_resilient _ (by decide)

/-! # Lemmas: block grouper and event fetcher -/

/-- Claim C5: over the fixed strictly increasing boundary table
3804340 < 4264340 < 4920350 < 5163656 < 5228684 for groups 1–5,
`group_block` returns the smallest `i` with `blockNumber ≤ b_i` (each
boundary value itself mapping to the lower group); returns group 6 when the
block exceeds the last boundary but not the current head; and returns `none`
at or below the lowest boundary 3014340 or above the current head. -/
theorem group_block_characterization (b head : Nat) :
    (b ≤ 3014340 → group_block b head = none) ∧
    (head < b → group_block b head = none) ∧
    (3014340 < b → b ≤ head →
      ((b ≤ 3804340 → group_block b head = some 1) ∧
       (3804340 < b → b ≤ 4264340 → group_block b head = some 2) ∧
       (4264340 < b → b ≤ 4920350 → group_block b head = some 3) ∧
       (4920350 < b → b ≤ 5163656 → group_block b head = some 4) ∧
       (5163656 < b → b ≤ 5228684 → group_block b head = some 5) ∧
       (5228684 < b → group_block b head = some 6))) := by
  refine ⟨?_, ?_, ?_⟩
  · intro h
    unfold group_block LOWEST_BLOCK
    rw [if_pos (by omega)]
  · intro h
    unfold group_block LOWEST_BLOCK
    by_cases hlow : b ≤ 3014340
    · rw [if_pos hlow]
    · rw [if_neg hlow, if_pos (by omega)]
  · intro hlow hhead
    refine ⟨?_, ?_, ?_, ?_, ?_, ?_⟩
    · intro h
      unfold group_block LOWEST_BLOCK GROUP_BOUNDS
      rw [if_neg (by omega), if_neg (by omega),
          List.find?_cons_of_pos _ (by simp; omega)]
    · intro h1 h2
      unfold group_block LOWEST_BLOCK GROUP_BOUNDS
      rw [if_neg (by omega), if_neg (by omega),
          List.find?_cons_of_neg _ (by simp; omega),
          List.find?_cons_of_pos _ (by simp; omega)]
    · intro h1 h2
      unfold group_block LOWEST_BLOCK GROUP_BOUNDS
      rw [if_neg (by omega), if_neg (by omega),
          List.find?_cons_of_neg _ (by simp; omega),
          List.find?_cons_of_neg _ (by simp; omega),
          List.find?_cons_of_pos _ (by simp; omega)]
    · intro h1 h2
      unfold group_block LOWEST_BLOCK GROUP_BOUNDS
      rw [if_neg (by omega), if_neg (by omega),
          List.find?_cons_of_neg _ (by simp; omega),
          List.find?_cons_of_neg _ (by simp; omega),
          List.find?_cons_of_neg _ (by simp; omega),
          List.find?_cons_of_pos _ (by simp; omega)]
    · intro h1 h2
      unfold group_block LOWEST_BLOCK GROUP_BOUNDS
      rw [if_neg (by omega), if_neg (by omega),
          List.find?_cons_of_neg _ (by simp; omega),
          List.find?_cons_of_neg _ (by simp; omega),
          List.find?_cons_of_neg _ (by simp; omega),
          List.find?_cons_of_neg _ (by simp; omega),
          List.find?_cons_of_pos _ (by simp; omega)]
    · intro h1
      unfold group_block LOWEST_BLOCK GROUP_BOUNDS
      rw [if_neg (by omega), if_neg (by omega),
          List.find?_cons_of_neg _ (by simp; omega),
          List.find?_cons_of_neg _ (by simp; omega),
          List.find?_cons_of_neg _ (by simp; omega),
          List.find?_cons_of_neg _ (by simp; omega),
          List.find?_cons_of_neg _ (by simp; omega), List.find?_nil]

/-- Claim C5 witness: the characterization applied at the boundary values
used by `test_group_block_boundaries` (head = 5228700). -/
theorem group_block_characterization_witness :
    group_block 3804340 5228700 = some 1 ∧
    group_block 3804341 5228700 = some 2 ∧
    group_block 5228684 5228700 = some 5 ∧
    group_block 5228685 5228700 = some 6 ∧
    group_block 3014340 5228700 = none ∧
    group_block 6000000 5228700 = none :=
  ⟨((group_block_characterization 3804340 5228700).2.2 (by norm_num) (by norm_num)).1
      (by norm_num),
   ((group_block_characterization 3804341 5228700).2.2 (by norm_num) (by norm_num)).2.1
      (by norm_num) (by norm_num),
   ((group_block_characterization 5228684 5228700).2.2 (by norm_num)
      (by norm_num)).2.2.2.2.1 (by norm_num) (by norm_num),
   ((group_block_characterization 5228685 5228700).2.2 (by norm_num)
      (by norm_num)).2.2.2.2.2 (by norm_num),
   (group_block_characterization 3014340 5228700).1 (by norm_num),
   (group_block_characterization 6000000 5228700).2.1 (by norm_num)⟩

theorem mem_groupKeysFlatten (blocks : List Nat) (head : Nat) (gs : List Nat) (x : Nat) :
    x ∈ ((gs.filterMap (fun g =>
        if (groupFilter blocks head g).isEmpty then none
        else some (g, groupFilter blocks head g))).map (fun gb => gb.2)).flatten →
    ∃ g ∈ gs, x ∈ groupFilter blocks head g := by
  intro hx
  rw [List.mem_flatten] at hx
  rcases hx with ⟨l, hl, hxl⟩
  rw [List.mem_map] at hl
  rcases hl with ⟨gb, hgb, rfl⟩
  rw [List.mem_filterMap] at hgb
  rcases hgb with ⟨g, hg, hfg⟩
  split at hfg
  · cases hfg
  · cases hfg
    exact ⟨g, hg, hxl⟩

theorem groupKeys_nodup (blocks : List Nat) (head : Nat) (hnd : blocks.Nodup) :
    ∀ gs : List Nat, gs.Nodup →
      ((gs.filterMap (fun g =>
          if (groupFilter blocks head g).isEmpty then none
          else some (g, groupFilter blocks head g))).map (fun gb => gb.2)).flatten.Nodup := by
  intro gs
  induction gs with
  | nil => intro _; simp
  | cons g rest ih =>
    intro hgs
    rw [List.nodup_cons] at hgs
    rw [List.filterMap_cons]
    by_cases hemp : (groupFilter blocks head g).isEmpty = true
    · rw [if_pos hemp]
      exact ih hgs.2
    · rw [if_neg hemp]
      simp only [List.map_cons, List.flatten_cons]
      rw [List.nodup_append]
      refine ⟨hnd.filter _, ih hgs.2, ?_⟩
      intro x hxg hxrest
      rcases mem_groupKeysFlatten blocks head rest x hxrest with ⟨g', hg', hxg'⟩
      have h1 : group_block x head = some g := by
        have := List.of_mem_filter hxg
        simpa using this
      have h2 : group_block x head = some g' := by
        have := List.of_mem_filter hxg'
        simpa using this
      rw [h1] at h2
      cases h2
      exact hgs.1 hg'

/-- The keys of a fetch result are exactly the flattened per-group block
lists. -/
theorem fetch_keys_eq (blocks : List Nat) (head : Nat) (events : Nat → α) :
    (((group_blocks blocks head).map
        (fun gb => gb.2.map (fun b => (b, events b)))).flatten).map Prod.fst
      = ((group_blocks blocks head).map (fun gb => gb.2)).flatten := by
  rw [List.map_flatten, List.map_map]
  refine congrArg List.flatten (List.map_congr_left ?_)
  intro gb _
  have hid : (Prod.fst ∘ fun b : Nat => (b, events b)) = id := by
    funext b
    rfl
  simp only [Function.comp_apply]
  rw [List.map_map, hid, List.map_id]

/-- Claim C6: `fetch_all_events` deduplicates repeated block numbers in its
input (the result maps each block number at most once, and a literally
repeated input block changes nothing), and an empty input or an input
containing any non-integer yields an empty map. -/
theorem fetch_all_events_dedup_failsafe {α : Type} :
    (∀ (head : Nat) (events : Nat → α), fetch_all_events [] head events = []) ∧
    (∀ (xs : List BlockInput) (head : Nat) (events : Nat → α),
      BlockInput.nonInt ∈ xs → fetch_all_events xs head events = []) ∧
    (∀ (xs : List BlockInput) (head : Nat) (events : Nat → α),
      ((fetch_all_events xs head events).map Prod.fst).Nodup) ∧
    (∀ (x : BlockInput) (xs : List BlockInput) (head : Nat) (events : Nat → α),
      fetch_all_events (x :: x :: xs) head events = fetch_all_events (x :: xs) head events) := by
  refine ⟨fun _ _ => rfl, ?_, ?_, ?_⟩
  · intro xs head events h
    unfold fetch_all_events
    rw [if_pos]
    rw [List.any_eq_true]
    exact ⟨BlockInput.nonInt, h, rfl⟩
  · intro xs head events
    unfold fetch_all_events
    by_cases h : (xs.any fun x => !x.isInt) = true
    · rw [if_pos h]
      simp
    · rw [if_neg h]
      rw [fetch_keys_eq]
      exact groupKeys_nodup _ head (List.nodup_dedup _) _ (by decide)
  · intro x xs head events
    cases x with
    | nonInt =>
      unfold fetch_all_events
      rw [if_pos (by simp [BlockInput.isInt]), if_pos (by simp [BlockInput.isInt])]
    | intV n =>
      unfold fetch_all_events
      have hany : ((BlockInput.intV n :: BlockInput.intV n :: xs).any fun x => !x.isInt)
          = ((BlockInput.intV n :: xs).any fun x => !x.isInt) := by
        simp [BlockInput.isInt]
      rw [hany]
      by_cases h : ((BlockInput.intV n :: xs).any fun x => !x.isInt) = true
      · rw [if_pos h, if_pos h]
      · rw [if_neg h, if_neg h]
        have hded : ((BlockInput.intV n :: BlockInput.intV n :: xs).filterMap
              BlockInput.toInt?).dedup
            = ((BlockInput.intV n :: xs).filterMap BlockInput.toInt?).dedup := by
          simp only [List.filterMap_cons, BlockInput.toInt?]
          rw [List.dedup_cons_of_mem (by simp)]
        rw [hded]

/-- Claim C6 witness: a non-integer input yields an empty map (concrete
instance of the fail-safe conjunct). -/
theorem fetch_all_events_dedup_failsafe_witness :
    fetch_all_events [BlockInput.intV 3014341, BlockInput.nonInt] 5228700
      (fun _ => (0 : Nat)) = [] :=
  fetch_all_events_dedup_failsafe.2.1 _ 5228700 (fun _ => (0 : Nat)) (by decide)

/-! # Lemmas: the consumer's buffering -/

theorem fullFlushesAux_join (B : Nat) :
    ∀ (fuel : Nat) (buf : List α),
      (fullFlushesAux B fuel buf).1.flatten ++ (fullFlushesAux B fuel buf).2 = buf := by
  intro fuel
  induction fuel with
  | zero => intro buf; simp [fullFlushesAux]
  | succ n ih =>
    intro buf
    simp only [fullFlushesAux]
    split
    · cases hr : fullFlushesAux B n (buf.drop B) with
      | mk fs rest =>
        have hres := ih (buf.drop B)
        rw [hr] at hres
        simp only [] at hres ⊢
        rw [List.flatten_cons, List.append_assoc, hres, List.take_append_drop]
    · simp

theorem fullFlushesAux_sizes (B : Nat) (hB : 0 < B) :
    ∀ (fuel : Nat) (buf : List α), buf.length ≤ fuel →
      (fullFlushesAux B fuel buf).1.map List.length
        = List.replicate (buf.length / B) B ∧
      (fullFlushesAux B fuel buf).2.length = buf.length % B := by
  intro fuel
  induction fuel with
  | zero =>
    intro buf hlen
    have hnil : buf = [] := List.eq_nil_of_length_eq_zero (by omega)
    subst hnil
    simp [fullFlushesAux]
  | succ n ih =>
    intro buf hlen
    simp only [fullFlushesAux]
    split
    next hc =>
      obtain ⟨_, hBle⟩ := hc
      cases hr : fullFlushesAux B n (buf.drop B) with
      | mk fs rest =>
        have hlen' : (buf.drop B).length ≤ n := by
          rw [List.length_drop]
          omega
        have hres := ih (buf.drop B) hlen'
        rw [hr] at hres
        simp only [] at hres ⊢
        rw [List.length_drop] at hres
        obtain ⟨h1, h2⟩ := hres
        constructor
        · rw [List.map_cons, h1, List.length_take, min_eq_left hBle,
              Nat.div_eq_sub_div hB hBle, List.replicate_succ]
        · rw [h2, ← Nat.mod_eq_sub_mod hBle]
    next hc =>
      have hlt : buf.length < B := by
        rcases Nat.lt_or_ge buf.length B with h | h
        · exact h
        · exact absurd ⟨hB, h⟩ hc
      simp only []
      rw [Nat.div_eq_of_lt hlt, Nat.mod_eq_of_lt hlt]
      simp

theorem fullFlushes_join (B : Nat) (buf : List α) :
    (fullFlushes B buf).1.flatten ++ (fullFlushes B buf).2 = buf :=
  fullFlushesAux_join B buf.length buf

theorem fullFlushes_sizes (B : Nat) (hB : 0 < B) (buf : List α) :
    (fullFlushes B buf).1.map List.length = List.replicate (buf.length / B) B ∧
    (fullFlushes B buf).2.length = buf.length % B :=
  fullFlushesAux_sizes B hB buf.length buf (le_refl _)

theorem consumerFold_join (B : Nat) :
    ∀ (msgs : List (List α)) (acc : List (List α) × List α),
      (msgs.foldl (consumerStep B) acc).1.flatten ++ (msgs.foldl (consumerStep B) acc).2
        = acc.1.flatten ++ acc.2 ++ msgs.flatten := by
  intro msgs
  induction msgs with
  | nil => intro acc; simp
  | cons e ms ih =>
    intro acc
    rw [List.foldl_cons]
    have hstep : consumerStep B acc e =
        ((acc.1 ++ (fullFlushes B (acc.2 ++ e)).1, (fullFlushes B (acc.2 ++ e)).2)) := by
      simp only [consumerStep]
    rw [hstep, ih]
    have hj := fullFlushes_join B (acc.2 ++ e)
    have key : acc.1.flatten ++ ((fullFlushes B (acc.2 ++ e)).1.flatten ++
        ((fullFlushes B (acc.2 ++ e)).2 ++ ms.flatten))
        = acc.1.flatten ++ (acc.2 ++ (e ++ ms.flatten)) := by
      rw [← List.append_assoc ((fullFlushes B (acc.2 ++ e)).1.flatten), hj]
      simp [List.append_assoc]
    simpa [List.flatten_append, List.flatten_cons, List.append_assoc] using key

/-- Arithmetic: pulling a full-division prefix out. -/
theorem div_mod_shift (B a L : Nat) (hB : 0 < B) :
    a / B + (a % B + L) / B = (a + L) / B ∧ (a % B + L) % B = (a + L) % B := by
  constructor
  · conv_rhs => rw [← Nat.div_add_mod a B, Nat.add_assoc]
    rw [Nat.mul_add_div hB]
  · conv_rhs => rw [← Nat.div_add_mod a B, Nat.add_assoc]
    rw [Nat.mul_add_mod]

theorem consumerFold_sizes (B : Nat) (hB : 0 < B) :
    ∀ (msgs : List (List α)) (fs0 : List (List α)) (buf0 : List α),
      buf0.length < B →
      (msgs.foldl (consumerStep B) (fs0, buf0)).1.map List.length
        = fs0.map List.length
          ++ List.replicate ((buf0.length + msgs.flatten.length) / B) B ∧
      (msgs.foldl (consumerStep B) (fs0, buf0)).2.length
        = (buf0.length + msgs.flatten.length) % B := by
  intro msgs
  induction msgs with
  | nil =>
    intro fs0 buf0 hlt
    simp only [List.foldl_nil, List.flatten_nil, List.length_nil, Nat.add_zero]
    rw [Nat.div_eq_of_lt hlt, Nat.mod_eq_of_lt hlt]
    simp
  | cons e ms ih =>
    intro fs0 buf0 hlt
    rw [List.foldl_cons]
    have hstep : consumerStep B (fs0, buf0) e =
        (fs0 ++ (fullFlushes B (buf0 ++ e)).1, (fullFlushes B (buf0 ++ e)).2) := by
      simp only [consumerStep]
    rw [hstep]
    have hsz := fullFlushes_sizes B hB (buf0 ++ e)
    have hlt' : (fullFlushes B (buf0 ++ e)).2.length < B := by
      rw [hsz.2]
      exact Nat.mod_lt _ hB
    have hres := ih (fs0 ++ (fullFlushes B (buf0 ++ e)).1) (fullFlushes B (buf0 ++ e)).2 hlt'
    have hshift := div_mod_shift B (buf0.length + e.length) ms.flatten.length hB
    constructor
    · rw [hres.1, List.map_append, hsz.1, hsz.2]
      simp only [List.length_append, List.flatten_cons, List.append_assoc]
      rw [← List.replicate_add, hshift.1, Nat.add_assoc]
    · rw [hres.2, hsz.2]
      simp only [List.length_append, List.flatten_cons]
      rw [hshift.2, Nat.add_assoc]

theorem consumerFlushes_sizes (B : Nat) (hB : 0 < B) (msgs : List (List α)) :
    (consumerFlushes B msgs).map List.length
      = List.replicate (msgs.flatten.length / B) B ++ [msgs.flatten.length % B] := by
  unfold consumerFlushes consumerRun
  have h := consumerFold_sizes B hB msgs [] [] (by simpa using hB)
  rw [List.map_append, h.1]
  simp [h.2]

theorem consumerFlushes_join (B : Nat) (msgs : List (List α)) :
    (consumerFlushes B msgs).flatten = msgs.flatten := by
  unfold consumerFlushes consumerRun
  have h := consumerFold_join B msgs ([], [])
  rw [List.flatten_append]
  simpa using h

/-- Claim C7: the retry consumer flushes exactly `bufferSize` pending
block/event pairs whenever its buffer reaches `bufferSize`, and on producer
completion flushes whatever remains (including zero): for any message
stream, the flush sizes are `totalItems / bufferSize` full flushes of
exactly `bufferSize` followed by one final flush of `totalItems mod
bufferSize`, with all items flushed in order; in particular a stream of
12,000 pairs with `bufferSize = 5000` triggers exactly two full flushes of
5000 and one final flush of 2000. -/
theorem consumer_buffering :
    (∀ (B : Nat) (msgs : List (List (Nat × Unit))), 0 < B →
      (consumerFlushes B msgs).map List.length
        = List.replicate (msgs.flatten.length / B) B ++ [msgs.flatten.length % B] ∧
      (consumerFlushes B msgs).flatten = msgs.flatten) ∧
    (consumerFlushes 5000
        (List.replicate 12 (List.replicate 1000 ((0, ()) : Nat × Unit)))).map List.length
      = [5000, 5000, 2000] := by
  refine ⟨fun B msgs hB => ⟨consumerFlushes_sizes B hB msgs, consumerFlushes_join B msgs⟩, ?_⟩
  rw [consumerFlushes_sizes 5000 (by norm_num)]
  have hn : (List.replicate 12 (List.replicate 1000 ((0, ()) : Nat × Unit))).flatten.length
      = 12000 := by
    rw [List.length_flatten, List.map_replicate, List.length_replicate,
        List.sum_replicate, smul_eq_mul]
  rw [hn]
  norm_num
  rfl

/-- Claim C7 witness: the general flush-shape statement applied to a
concrete 3-item stream with `bufferSize = 2`. -/
theorem consumer_buffering_witness :
    0 < 2 ∧
    ((consumerFlushes 2 [[((1 : Nat), ())], [((2 : Nat), ()), ((3 : Nat), ())]]).map List.length
       = List.replicate
           (([[((1 : Nat), ())], [((2 : Nat), ()), ((3 : Nat), ())]] :
               List (List (Nat × Unit))).flatten.length / 2) 2
         ++ [([[((1 : Nat), ())], [((2 : Nat), ()), ((3 : Nat), ())]] :
               List (List (Nat × Unit))).flatten.length % 2] ∧
     (consumerFlushes 2 [[((1 : Nat), ())], [((2 : Nat), ()), ((3 : Nat), ())]]).flatten
       = ([[((1 : Nat), ())], [((2 : Nat), ()), ((3 : Nat), ())]] :
           List (List (Nat × Unit))).flatten) :=
  ⟨by decide, consumer_buffering.1 2 [[((1 : Nat), ())], [((2 : Nat), ()), ((3 : Nat), ())]]
    (by decide)⟩

/-! # Lemmas: the retry pipeline's reconciliation -/

theorem convert_block_number (e : PEvent) :
    (convert_to_db_format e).block_number = e.evidence.block_number := by
  unfold convert_to_db_format
  split
  · rfl
  · rfl


theorem dictInsert_update_keys (acc : List (Nat × α)) (p : Nat × α) :
    (acc.map (fun q => if q.1 = p.1 then p else q)).map Prod.fst = acc.map Prod.fst := by
  rw [List.map_map]
  apply List.map_congr_left
  intro q _
  by_cases h : q.1 = p.1
  · simp [h, Function.comp]
  · simp [h, Function.comp]

theorem dictInsert_keys_mem (acc : List (Nat × α)) (p : Nat × α) (k : Nat) :
    k ∈ keysOf (dictInsert acc p) ↔ k ∈ keysOf acc ∨ k = p.1 := by
  unfold dictInsert keysOf
  by_cases h : acc.any (fun q => decide (q.1 = p.1)) = true
  · rw [if_pos h, dictInsert_update_keys]
    rw [List.any_eq_true] at h
    rcases h with ⟨q, hq, hq1⟩
    simp only [decide_eq_true_eq] at hq1
    constructor
    · intro hk; exact Or.inl hk
    · rintro (hk | rfl)
      · exact hk
      · exact List.mem_map.mpr ⟨q, hq, hq1⟩
  · rw [if_neg h]
    simp

theorem dictInsert_keys_nodup (acc : List (Nat × α)) (p : Nat × α)
    (h : (keysOf acc).Nodup) : (keysOf (dictInsert acc p)).Nodup := by
  unfold dictInsert keysOf
  by_cases hc : acc.any (fun q => decide (q.1 = p.1)) = true
  · rw [if_pos hc, dictInsert_update_keys]
    exact h
  · rw [if_neg hc, List.map_append]
    rw [List.nodup_append]
    refine ⟨h, by simp, ?_⟩
    intro x hx hx1
    simp only [List.map_cons, List.map_nil, List.mem_singleton] at hx1
    subst hx1
    rw [List.any_eq_true] at hc
    push_neg at hc
    rcases List.mem_map.mp hx with ⟨q, hq, hq1⟩
    exact absurd (by simp [hq1] : decide (q.1 = p.1) = true) (by simpa using hc q hq)

theorem toDict_fold_facts (l : List (Nat × α)) :
    ∀ acc : List (Nat × α),
      (∀ k, k ∈ keysOf (l.foldl dictInsert acc) ↔ k ∈ keysOf acc ∨ k ∈ keysOf l) ∧
      ((keysOf acc).Nodup → (keysOf (l.foldl dictInsert acc)).Nodup) := by
  induction l with
  | nil => intro acc; simp [keysOf]
  | cons p rest ih =>
    intro acc
    rw [List.foldl_cons]
    have hih := ih (dictInsert acc p)
    constructor
    · intro k
      rw [hih.1 k, dictInsert_keys_mem]
      unfold keysOf
      simp only [List.map_cons, List.mem_cons]
      tauto
    · intro hnd
      exact hih.2 (dictInsert_keys_nodup acc p hnd)

theorem toDict_keys_mem (l : List (Nat × α)) (k : Nat) :
    k ∈ keysOf (toDict l) ↔ k ∈ keysOf l := by
  unfold toDict
  rw [(toDict_fold_facts l []).1 k]
  simp [keysOf]

theorem toDict_keys_nodup (l : List (Nat × α)) : (keysOf (toDict l)).Nodup := by
  unfold toDict
  exact (toDict_fold_facts l []).2 (by simp [keysOf])

/-- Every block number in `blocks_with_events` is (the `some` of) a key of
the flushed dict. -/
theorem bweOf_sub (process : List (Nat × α) → List PEvent) (f : List (Nat × α))
    (hproc : ∀ (l : List (Nat × α)) (e : PEvent), e ∈ process l →
      ∃ k ∈ keysOf l, e.evidence.block_number = some k) :
    ∀ x ∈ bweOf process f, ∃ k, k ∈ keysOf (toDict f) ∧ x = some k := by
  intro x hx
  unfold bweOf edlOf at hx
  rw [List.mem_dedup, List.map_map, List.mem_map] at hx
  rcases hx with ⟨e, he, hxe⟩
  rcases hproc (toDict f) e he with ⟨k, hk, hke⟩
  refine ⟨k, hk, ?_⟩
  rw [← hxe]
  simp only [Function.comp_apply, convert_block_number]
  exact hke

theorem bweOf_mem_keys (process : List (Nat × α) → List PEvent) (f : List (Nat × α))
    (hproc : ∀ (l : List (Nat × α)) (e : PEvent), e ∈ process l →
      ∃ k ∈ keysOf l, e.evidence.block_number = some k)
    (b : Nat) (hb : some b ∈ bweOf process f) : b ∈ keysOf f := by
  rcases bweOf_sub process f hproc (some b) hb with ⟨k, hk, hkb⟩
  cases hkb
  exact (toDict_keys_mem f b).mp hk

theorem pbe_succ_mem (process : List (Nat × α) → List PEvent)
    (storeOk : List DbEvent → Bool) (st : RetrySt) (f : List (Nat × α)) (x : Option Nat) :
    x ∈ (process_buffered_events process storeOk st f).successful ↔
      x ∈ st.successful ∨
      (f.isEmpty = false ∧ storeOk (edlOf process f) = true ∧ x ∈ bweOf process f) := by
  unfold process_buffered_events
  by_cases hf : f.isEmpty
  · rw [if_pos hf]
    simp [hf]
  · rw [if_neg hf]
    simp only []
    by_cases hedl : (edlOf process f).isEmpty
    · rw [if_pos hedl]
      have hbwe : bweOf process f = [] := by
        unfold bweOf
        rw [List.isEmpty_iff] at hedl
        rw [hedl]
        rfl
      simp [hbwe]
    · rw [if_neg hedl]
      by_cases hst : storeOk (edlOf process f) = true
      · rw [if_pos hst]
        rw [List.mem_append]
        constructor
        · rintro (h | h)
          · exact Or.inl h
          · exact Or.inr ⟨by simpa using hf, hst, h⟩
        · rintro (h | ⟨_, _, h⟩)
          · exact Or.inl h
          · exact Or.inr h
      · rw [if_neg hst]
        constructor
        · intro h; exact Or.inl h
        · rintro (h | ⟨_, hc, _⟩)
          · exact h
          · exact absurd hc hst

theorem pbe_without_mem (process : List (Nat × α) → List PEvent)
    (storeOk : List DbEvent → Bool) (st : RetrySt) (f : List (Nat × α)) (b : Nat)
    (hproc : ∀ (l : List (Nat × α)) (e : PEvent), e ∈ process l →
      ∃ k ∈ keysOf l, e.evidence.block_number = some k) :
    b ∈ (process_buffered_events process storeOk st f).withoutEvents ↔
      b ∈ st.withoutEvents ∨ (b ∈ keysOf (toDict f) ∧ some b ∉ bweOf process f) := by
  unfold process_buffered_events
  by_cases hf : f.isEmpty
  · rw [if_pos hf]
    rw [List.isEmpty_iff] at hf
    subst hf
    constructor
    · intro h; exact Or.inl h
    · rintro (h | ⟨hk, _⟩)
      · exact h
      · exact absurd hk (by simp [toDict, keysOf])
  · rw [if_neg hf]
    simp only []
    by_cases hlen : (toDict f).length = (bweOf process f).length
    · rw [if_pos hlen]
      -- equal counts: every key carries an event, so nothing is added
      have hall : ∀ k ∈ keysOf (toDict f), some k ∈ bweOf process f := by
        intro k hk
        have hsub : ∀ x ∈ bweOf process f, x ∈ (keysOf (toDict f)).map some := by
          intro x hx
          rcases bweOf_sub process f hproc x hx with ⟨k', hk', rfl⟩
          exact List.mem_map.mpr ⟨k', hk', rfl⟩
        have hnd : (bweOf process f).Nodup := List.nodup_dedup _
        have hknd : ((keysOf (toDict f)).map some).Nodup :=
          (toDict_keys_nodup f).map (fun a b => by simp)
        have hsp := List.subperm_of_subset hnd hsub
        have hlen2 : ((keysOf (toDict f)).map some).length ≤ (bweOf process f).length := by
          rw [List.length_map]
          unfold keysOf
          rw [List.length_map, ← hlen]
        have hperm := hsp.perm_of_length_le hlen2
        exact hperm.mem_iff.mpr (List.mem_map.mpr ⟨k, hk, rfl⟩)
      constructor
      · intro h; exact Or.inl h
      · rintro (h | ⟨hk, hnb⟩)
        · exact h
        · exact absurd (hall b hk) hnb
    · rw [if_neg hlen]
      rw [List.mem_append, List.mem_filter]
      simp only [decide_eq_true_eq]

theorem retryFold_frame (process : List (Nat × α) → List PEvent)
    (storeOk : List DbEvent → Bool)
    (hproc : ∀ (l : List (Nat × α)) (e : PEvent), e ∈ process l →
      ∃ k ∈ keysOf l, e.evidence.block_number = some k) :
    ∀ (F : List (List (Nat × α))) (st : RetrySt) (b : Nat),
      b ∉ keysOf F.flatten →
      (some b ∈ (F.foldl (process_buffered_events process storeOk) st).successful ↔
        some b ∈ st.successful) ∧
      (b ∈ (F.foldl (process_buffered_events process storeOk) st).withoutEvents ↔
        b ∈ st.withoutEvents) := by
  intro F
  induction F with
  | nil => intro st b _; simp
  | cons f F' ih =>
    intro st b hb
    have hkeys : b ∉ keysOf f ∧ b ∉ keysOf F'.flatten := by
      unfold keysOf at hb ⊢
      rw [List.flatten_cons, List.map_append, List.mem_append] at hb
      push_neg at hb
      exact hb
    rw [List.foldl_cons]
    have hih := ih (process_buffered_events process storeOk st f) b hkeys.2
    refine ⟨?_, ?_⟩
    · rw [hih.1, pbe_succ_mem]
      constructor
      · rintro (h | ⟨_, _, h⟩)
        · exact h
        · exact absurd (bweOf_mem_keys process f hproc b h) hkeys.1
      · intro h; exact Or.inl h
    · rw [hih.2, pbe_without_mem process storeOk st f b hproc]
      constructor
      · rintro (h | ⟨hk, _⟩)
        · exact h
        · exact absurd ((toDict_keys_mem f b).mp hk) hkeys.1
      · intro h; exact Or.inl h

theorem retryFold_dichotomy (process : List (Nat × α) → List PEvent)
    (storeOk : List DbEvent → Bool)
    (hstore : ∀ l, storeOk l = true)
    (hproc : ∀ (l : List (Nat × α)) (e : PEvent), e ∈ process l →
      ∃ k ∈ keysOf l, e.evidence.block_number = some k) :
    ∀ (F : List (List (Nat × α))) (st : RetrySt) (b : Nat),
      (keysOf F.flatten).Nodup →
      b ∈ keysOf F.flatten →
      some b ∉ st.successful → b ∉ st.withoutEvents →
      (some b ∈ (F.foldl (process_buffered_events process storeOk) st).successful ∧
        b ∉ (F.foldl (process_buffered_events process storeOk) st).withoutEvents) ∨
      (some b ∉ (F.foldl (process_buffered_events process storeOk) st).successful ∧
        b ∈ (F.foldl (process_buffered_events process storeOk) st).withoutEvents) := by
  intro F
  induction F with
  | nil => intro st b _ hb _ _; simp [keysOf] at hb
  | cons f F' ih =>
    intro st b hnd hb h0s h0w
    have hsplit : keysOf (f :: F').flatten = keysOf f ++ keysOf F'.flatten := by
      unfold keysOf
      rw [List.flatten_cons, List.map_append]
    rw [hsplit] at hnd hb
    rw [List.nodup_append] at hnd
    rw [List.foldl_cons]
    rcases List.mem_append.mp hb with hbf | hbF'
    · -- b belongs to this flush
      have hbnotF' : b ∉ keysOf F'.flatten := fun hc => hnd.2.2 hbf hc
      have hframe := retryFold_frame process storeOk hproc F'
        (process_buffered_events process storeOk st f) b hbnotF'
      by_cases hbbwe : some b ∈ bweOf process f
      · left
        constructor
        · rw [hframe.1, pbe_succ_mem]
          right
          refine ⟨?_, hstore _, hbbwe⟩
          cases f with
          | nil => simp [keysOf] at hbf
          | cons p f' => rfl
        · rw [hframe.2, pbe_without_mem process storeOk st f b hproc]
          rintro (h | ⟨_, hnb⟩)
          · exact h0w h
          · exact hnb hbbwe
      · right
        constructor
        · rw [hframe.1, pbe_succ_mem]
          rintro (h | ⟨_, _, h⟩)
          · exact h0s h
          · exact hbbwe h
        · rw [hframe.2, pbe_without_mem process storeOk st f b hproc]
          right
          exact ⟨(toDict_keys_mem f b).mpr hbf, hbbwe⟩
    · -- b belongs to a later flush
      have hbnotf : b ∉ keysOf f := fun hc => hnd.2.2 hc hbF'
      have hst1s : some b ∉ (process_buffered_events process storeOk st f).successful := by
        rw [pbe_succ_mem]
        rintro (h | ⟨_, _, h⟩)
        · exact h0s h
        · exact hbnotf (bweOf_mem_keys process f hproc b h)
      have hst1w : b ∉ (process_buffered_events process storeOk st f).withoutEvents := by
        rw [pbe_without_mem process storeOk st f b hproc]
        rintro (h | ⟨hk, _⟩)
        · exact h0w h
        · exact hbnotf ((toDict_keys_mem f b).mp hk)
      exact ih (process_buffered_events process storeOk st f) b hnd.2.1 hbF' hst1s hst1w

/-- Claim C3 (amended): for every batch of blocks processed by one retry
run, *provided every storage write succeeds* (and the producer partitions
the batch into fetch-failed blocks and streamed blocks, each streamed block
appearing exactly once, and the processor only emits events for the blocks
it was given), each block ends in exactly one of the three outcomes:
removed from the missed-block store, re-added with reason FETCH_FAILURE, or
re-added with reason NO_EVENTS.  (When a storage write fails, a block whose
events were processed but not persisted ends in *none* of the three — see
the counterexample.) -/
theorem retry_block_exactly_one (process : List (Nat × α) → List PEvent)
    (storeOk : List DbEvent → Bool) (B : Nat)
    (chunks : List (List (Nat × α))) (fetchFailed batch : List Nat)
    (hstore : ∀ l, storeOk l = true)
    (hproc : ∀ (l : List (Nat × α)) (e : PEvent), e ∈ process l →
      ∃ k ∈ keysOf l, e.evidence.block_number = some k)
    (hcover : ∀ b ∈ batch, b ∈ keysOf chunks.flatten ∨ b ∈ fetchFailed)
    (hdisj : ∀ b ∈ fetchFailed, b ∉ keysOf chunks.flatten)
    (hnodup : (keysOf chunks.flatten).Nodup) :
    ∀ b ∈ batch,
      ExactlyOne
        (some b ∈ (retry_missed_blocks process storeOk B chunks fetchFailed).removed)
        (b ∈ (retry_missed_blocks process storeOk B chunks fetchFailed).fetchFailure)
        (b ∈ (retry_missed_blocks process storeOk B chunks fetchFailed).noEvents) := by
  intro b hb
  have hkeysF : keysOf (consumerFlushes B chunks).flatten = keysOf chunks.flatten := by
    unfold keysOf
    rw [consumerFlushes_join]
  unfold retry_missed_blocks
  simp only [List.mem_dedup]
  rcases hcover b hb with hbk | hbf
  · have hbf' : b ∉ fetchFailed := fun hc => hdisj b hc hbk
    rcases retryFold_dichotomy process storeOk hstore hproc (consumerFlushes B chunks)
        { successful := [], withoutEvents := [] } b
        (by rw [hkeysF]; exact hnodup) (by rw [hkeysF]; exact hbk)
        (by simp) (by simp) with ⟨h1, h2⟩ | ⟨h1, h2⟩
    · exact Or.inl ⟨h1, hbf', h2⟩
    · exact Or.inr (Or.inr ⟨h1, hbf', h2⟩)
  · have hbk' : b ∉ keysOf (consumerFlushes B chunks).flatten := by
      rw [hkeysF]
      exact hdisj b hbf
    have hframe := retryFold_frame process storeOk hproc (consumerFlushes B chunks)
      { successful := [], withoutEvents := [] } b hbk'
    refine Or.inr (Or.inl ⟨?_, hbf, ?_⟩)
    · rw [hframe.1]
      simp
    · rw [hframe.2]
      simp

/-- A concrete event processor: one balance event per flushed block. -/
def procOneEvent : List (Nat × Unit) → List PEvent :=
  fun l => l.map (fun p =>
    { category := some "balance",
      evidence := { rao_amount := some 1, block_number := some p.1 } })

/-- A repository whose `add_events` always raises a storage error. -/
def storeAlwaysFail : List DbEvent → Bool := fun _ => false

theorem procOneEvent_spec :
    ∀ (l : List (Nat × Unit)) (e : PEvent), e ∈ procOneEvent l →
      ∃ k ∈ keysOf l, e.evidence.block_number = some k := by
  intro l e he
  rcases List.mem_map.mp he with ⟨p, hp, rfl⟩
  refine ⟨p.1, ?_, rfl⟩
  unfold keysOf
  exact List.mem_map.mpr ⟨p, hp, rfl⟩

/-- Claim C3 counterexample: block 2's fetch succeeds and it yields one
event, but the storage write fails — the block then ends in *none* of the
three outcomes (not removed, not FETCH_FAILURE, not NO_EVENTS), so the
exactly-one round-trip property fails as stated. -/
theorem retry_outcome_counterexample :
    ¬ ExactlyOne
      (some 2 ∈ (retry_missed_blocks procOneEvent storeAlwaysFail 7 [[(2, ())]] []).removed)
      (2 ∈ (retry_missed_blocks procOneEvent storeAlwaysFail 7 [[(2, ())]] []).fetchFailure)
      (2 ∈ (retry_missed_blocks procOneEvent storeAlwaysFail 7 [[(2, ())]] []).noEvents) := by
  decide

/-- Claim C3 witness: the amended exactly-one property on a concrete run —
blocks 1 and 2 streamed with events and persisted, block 3 fetch-failed. -/
theorem retry_block_exactly_one_witness :
    ExactlyOne
      (some 1 ∈ (retry_missed_blocks procOneEvent (fun _ => true) 5
        [[(1, ()), (2, ())]] [3]).removed)
      ((1 : Nat) ∈ (retry_missed_blocks procOneEvent (fun _ => true) 5
        [[(1, ()), (2, ())]] [3]).fetchFailure)
      ((1 : Nat) ∈ (retry_missed_blocks procOneEvent (fun _ => true) 5
        [[(1, ()), (2, ())]] [3]).noEvents) :=
  retry_block_exactly_one procOneEvent (fun _ => true) 5 [[(1, ()), (2, ())]] [3] [1, 2, 3]
    (fun _ => rfl) procOneEvent_spec (by decide) (by decide) (by decide) 1 (by decide)

/-- Claim C8 (amended): when the event repository's add-events call raises a
storage error during a flush, the retry pipeline logs it and extends the
successful list with nothing — so none of that flush's blocks are removed
from the missed-block store.  However, only the flush's blocks whose
processed output contained *no* events are re-added with reason NO_EVENTS;
a block whose events were processed but failed to persist is left exactly
as it was (neither removed nor re-added). -/
theorem storage_error_flush (process : List (Nat × α) → List PEvent)
    (storeOk : List DbEvent → Bool) (st : RetrySt) (f : List (Nat × α))
    (hfail : storeOk (edlOf process f) = false)
    (hproc : ∀ (l : List (Nat × α)) (e : PEvent), e ∈ process l →
      ∃ k ∈ keysOf l, e.evidence.block_number = some k) :
    (process_buffered_events process storeOk st f).successful = st.successful ∧
    (∀ b, b ∈ (process_buffered_events process storeOk st f).withoutEvents ↔
      b ∈ st.withoutEvents ∨ (b ∈ keysOf (toDict f) ∧ some b ∉ bweOf process f)) ∧
    (∀ b, b ∈ keysOf (toDict f) → some b ∈ bweOf process f →
      (b ∈ (process_buffered_events process storeOk st f).withoutEvents ↔
        b ∈ st.withoutEvents)) := by
  have hsucc : (process_buffered_events process storeOk st f).successful = st.successful := by
    unfold process_buffered_events
    by_cases hf : f.isEmpty
    · rw [if_pos hf]
    · rw [if_neg hf]
      simp only []
      by_cases hedl : (edlOf process f).isEmpty
      · rw [if_pos hedl]
      · rw [if_neg hedl, if_neg (by rw [hfail]; exact Bool.false_ne_true)]
  refine ⟨hsucc, fun b => pbe_without_mem process storeOk st f b hproc, ?_⟩
  intro b hk hbwe
  rw [pbe_without_mem process storeOk st f b hproc]
  constructor
  · rintro (h | ⟨_, hnb⟩)
    · exact h
    · exact absurd hbwe hnb
  · intro h
    exact Or.inl h

/-- Claim C8 counterexample: block 2 is fetched and yields an event, but the
storage write fails; the run removes nothing, records no FETCH_FAILURE and
records no NO_EVENTS — so the flush's blocks are *not* reconciled as if
they had yielded no events (the claim would require 2 ∈ noEvents). -/
theorem storage_error_counterexample :
    retry_missed_blocks procOneEvent storeAlwaysFail 5 [[(2, ())]] []
      = { removed := [], fetchFailure := [], noEvents := [] } := by
  decide

/-- Claim C8 witness: the amended per-flush behaviour on a concrete failing
flush whose single block 1 carries an event. -/
theorem storage_error_flush_witness :
    (process_buffered_events procOneEvent storeAlwaysFail
        { successful := [], withoutEvents := [] } [(1, ())]).successful
      = ({ successful := [], withoutEvents := [] } : RetrySt).successful ∧
    ((1 : Nat) ∈ (process_buffered_events procOneEvent storeAlwaysFail
        { successful := [], withoutEvents := [] } [(1, ())]).withoutEvents ↔
      (1 : Nat) ∈ ({ successful := [], withoutEvents := [] } : RetrySt).withoutEvents ∨
      ((1 : Nat) ∈ keysOf (toDict [(1, ())]) ∧
        some 1 ∉ bweOf procOneEvent [(1, ())])) :=
  ⟨(storage_error_flush procOneEvent storeAlwaysFail
      { successful := [], withoutEvents := [] } [(1, ())] rfl procOneEvent_spec).1,
   (storage_error_flush procOneEvent storeAlwaysFail
      { successful := [], withoutEvents := [] } [(1, ())] rfl procOneEvent_spec).2.1 1⟩
